import Mathlib

/-!
Shallow embedding of the reference-consistency engine of a GitLab-to-GitHub
issue-tracker migration tool (the repository converter, the transfer driver
and the storage helpers), together with proofs about its identifier-map
builders and its body-rewriting passes.

Strings are modelled as `List Char`.  JavaScript's global regex replace
`str.replace(/re/g, cb)` is modelled by a left-to-right scanner over the
original character list: at each position the pattern is tried (a lookbehind
receives the previous character of the original string, which is what the
JS engine consults, since `replace` computes all matches against the input
string); on a match the callback's replacement is emitted and the scanner
resumes after the matched span.  A fuel argument, initialised with the
string length (an upper bound on the number of scanned positions, because
every pattern of interest consumes at least one character per match), makes
the recursion structural.
-/

namespace G2G

/-- JS `\w` (word character): `[A-Za-z0-9_]`. -/
def isWordCharB (c : Char) : Bool := c.isAlphanum || c == '_'

/-- The span matched by `\d+` at the head of `s` (maximal munch). -/
def takeDigits (s : List Char) : List Char := s.takeWhile Char.isDigit

/-- `parseInt` on a string of decimal digits. -/
def digitsToNat (ds : List Char) : Nat :=
  ds.foldl (fun a c => 10 * a + (c.toNat - 48)) 0

def natToChars (n : Nat) : List Char := (Nat.repr n).toList

def intToChars (i : Int) : List Char :=
  match i with
  | .ofNat n => natToChars n
  | .negSucc n => '-' :: natToChars (n + 1)

/-- The apostrophe character (U+0027). -/
def squote : Char := Char.ofNat 39

/-- Association-list lookup (JS `Map.get` / object property read). -/
def alookup {κ ν : Type} [DecidableEq κ] : List (κ × ν) → κ → Option ν
  | [], _ => none
  | (k, v) :: rest, k' => if k = k' then some v else alookup rest k'

/-- JS `Map.set`: overwrite in place if the key exists, else append. -/
def mapSet {κ ν : Type} [DecidableEq κ] : List (κ × ν) → κ → ν → List (κ × ν)
  | [], k, v => [(k, v)]
  | (k', v') :: rest, k, v =>
    if k' = k then (k, v) :: rest else (k', v') :: mapSet rest k v

/-!
## The regex-replace scanner

A `Matcher` tries one regex at one position: it receives the previous
character of the original string (`none` at position 0) and the remaining
text; on success it returns the replacement produced by the callback, the
last character of the matched span (the lookbehind context for the
position that follows the match) and the number of characters consumed.
-/

abbrev Matcher := Option Char → List Char → Option (List Char × Char × Nat)

def scanFuel (f : Matcher) : Nat → Option Char → List Char → List Char
  | 0, _, s => s
  | _ + 1, _, [] => []
  | fuel + 1, prev, c :: cs =>
    match f prev (c :: cs) with
    | some (repl, lastc, n) =>
      repl ++ scanFuel f fuel (some lastc) (List.drop (max 1 n) (c :: cs))
    | none => c :: scanFuel f fuel (some c) cs

/-- One global-replace pass of the regex embodied by `f` over `s`. -/
def scan (f : Matcher) (s : List Char) : List Char := scanFuel f s.length none s

/-- The lookbehind context after copying `pre` verbatim. -/
def prevAfter (pre : List Char) (p : Option Char) : Option Char :=
  match pre.getLast? with
  | some c => some c
  | none => p

/-!
## The body-rewriting passes of `RepoConverter.convertBody`

Each regex pass of `convertBody` is one `Matcher`.  Identifier maps that may
not have been built yet (`this.issueMap` / `this.mrMap` / `this.milestoneMap`
are optional fields of the converter) are modelled as `Option` association
lists.
-/

/-- `issueReplacer` from `convertBody`: resolve `#n` through the issue map
when it is initialised and has the key, else return the reference
unchanged. -/
def issueReplacer (issueMap : Option (List (Nat × Nat))) (ds : List Char) :
    List Char :=
  match issueMap.bind (fun m => alookup m (digitsToNat ds)) with
  | some v => '#' :: natToChars v
  | none => '#' :: ds

/-- The pass `str.replace(/(?<=\W)#(\d+)/g, (_, p1) => issueReplacer(p1))`. -/
def tryIssueRef (issueMap : Option (List (Nat × Nat))) : Matcher :=
  fun prev s =>
    match s with
    | [] => none
    | c :: rest =>
      if c = '#' then
        match prev with
        | none => none
        | some p =>
          if isWordCharB p then none
          else
            let ds := takeDigits rest
            if ds = [] then none
            else some (issueReplacer issueMap ds, ds.getLastD '0', 1 + ds.length)
      else none

def convertIssueRefs (issueMap : Option (List (Nat × Nat))) (s : List Char) :
    List Char :=
  scan (tryIssueRef issueMap) s

/-- `mrReplacer` from `convertBody`: resolve `!n` through the merge-request
map to a `#`-style pull-request reference, else return `!n` as is. -/
def mrReplacer (mrMap : Option (List (Nat × Nat))) (ds : List Char) :
    List Char :=
  match mrMap.bind (fun m => alookup m (digitsToNat ds)) with
  | some v => '#' :: natToChars v
  | none => '!' :: ds

/-- The pass `str.replace(/(?<=\W)!(\d+)/g, (_, p1) => mrReplacer(p1))`. -/
def tryMrRef (mrMap : Option (List (Nat × Nat))) : Matcher :=
  fun prev s =>
    match s with
    | [] => none
    | c :: rest =>
      if c = '!' then
        match prev with
        | none => none
        | some p =>
          if isWordCharB p then none
          else
            let ds := takeDigits rest
            if ds = [] then none
            else some (mrReplacer mrMap ds, ds.getLastD '0', 1 + ds.length)
      else none

def convertMrRefs (mrMap : Option (List (Nat × Nat))) (s : List Char) :
    List Char :=
  scan (tryMrRef mrMap) s

/-- `SimpleItem` (`{ iid, title }` projection used by the milestone map). -/
structure SimpleItem where
  iid : Int
  title : List Char
deriving DecidableEq, Repr

/-- The GitHub coordinates used to build milestone links. -/
structure LinkConfig where
  githubUrl : List Char
  githubOwner : List Char
  githubRepo : List Char
deriving DecidableEq, Repr

/-- The lookup performed by `milestoneReplacer`: numeric lookup when the
`number` argument is a non-empty (JS truthy) string, else a linear
title search over the map's values, else nothing; `undefined` when the
milestone map has not been built. -/
def milestoneLookup (milestoneMap : Option (List (Int × SimpleItem)))
    (number title : List Char) : Option SimpleItem :=
  match milestoneMap with
  | none => none
  | some mm =>
    if number ≠ [] then alookup mm (Int.ofNat (digitsToNat number))
    else if title ≠ [] then
      (mm.find? (fun kv => kv.2.title == title)).map Prod.snd
    else none

/-- `milestoneReplacer` from `convertBody`: numeric lookup for `%n`, title
lookup for `%"title"`; a resolved reference becomes a markdown link, an
unresolved one the quoted string `'Reference to deleted milestone %…'`. -/
def milestoneReplacer (lc : LinkConfig)
    (milestoneMap : Option (List (Int × SimpleItem)))
    (number title repo : List Char) : List Char :=
  match milestoneLookup milestoneMap number title with
  | some mi =>
    let repoLink := lc.githubUrl ++ '/' :: lc.githubOwner ++ '/' ::
      (if repo = [] then lc.githubRepo else repo)
    '[' :: mi.title ++ ']' :: '(' :: repoLink ++ "/milestone/".toList ++
      intToChars mi.iid ++ [')']
  | none =>
    squote :: ("Reference to deleted milestone %".toList ++
      (if number ≠ [] then number else title)) ++ [squote]

/-- The pass `str.replace(/(?<=\W)%(\d+)/g, (_, p1) =>
milestoneReplacer(p1, ''))`. -/
def tryMilestoneNumRef (lc : LinkConfig)
    (milestoneMap : Option (List (Int × SimpleItem))) : Matcher :=
  fun prev s =>
    match s with
    | [] => none
    | c :: rest =>
      if c = '%' then
        match prev with
        | none => none
        | some p =>
          if isWordCharB p then none
          else
            let ds := takeDigits rest
            if ds = [] then none
            else some (milestoneReplacer lc milestoneMap ds [] [],
              ds.getLastD '0', 1 + ds.length)
      else none

def convertMilestoneNumRefs (lc : LinkConfig)
    (milestoneMap : Option (List (Int × SimpleItem))) (s : List Char) :
    List Char :=
  scan (tryMilestoneNumRef lc milestoneMap) s

/-- The characters `.` can match inside `(.*?)` (JS: anything but a line
terminator). -/
def isTitleChar (c : Char) : Bool := !(c == '"' || c == '\n' || c == '\r')

/-- The pass `str.replace(/(?<=\W)%"(.*?)"/g, (_, p1) =>
milestoneReplacer('', p1))`; the lazy group captures up to the first
closing quote, with no line terminator in between. -/
def tryMilestoneTitleRef (lc : LinkConfig)
    (milestoneMap : Option (List (Int × SimpleItem))) : Matcher :=
  fun prev s =>
    match s with
    | c :: d :: rest =>
      if c = '%' ∧ d = '"' then
        match prev with
        | none => none
        | some p =>
          if isWordCharB p then none
          else
            let content := rest.takeWhile isTitleChar
            match rest.drop content.length with
            | '"' :: _ =>
              some (milestoneReplacer lc milestoneMap [] content [], '"',
                3 + content.length)
            | _ => none
      else none
    | _ => none

def convertMilestoneTitleRefs (lc : LinkConfig)
    (milestoneMap : Option (List (Int × SimpleItem))) (s : List Char) :
    List Char :=
  scan (tryMilestoneTitleRef lc milestoneMap) s

/-!
## User-mention and cross-project passes

The usermap pass is the regex `@key1|@key2|…` over the keys of
`settings.usermap`; the cross-project passes are alternations
`(key1)<sig>(tail)|(key2)<sig>(tail)|…` over the keys of
`settings.projectmap`.  JS alternation is ordered: the first alternative
that matches at a position wins.  Crucially, the replace callbacks of the
cross-project passes only name the first alternative's capture groups
(`(_, p1, p2) => …`), so a match of any later alternative sees both
groups as `undefined`.
-/

/-- String coercion of a possibly-undefined capture group or lookup. -/
def jsStr (o : Option (List Char)) : List Char := o.getD "undefined".toList

def tryUserMention (usermap : List (List Char × List Char)) : Matcher :=
  fun _prev s =>
    match s with
    | '@' :: rest =>
      match (usermap.map Prod.fst).find? (fun k => k.isPrefixOf rest) with
      | some k =>
        some ('@' :: jsStr (alookup usermap k), ('@' :: k).getLastD '@',
          1 + k.length)
      | none => none
    | _ => none

def convertUserMentions (usermap : List (List Char × List Char))
    (s : List Char) : List Char :=
  scan (tryUserMention usermap) s

/-- Try the alternatives `(key)<sig><capture>` in key order at the head of
`s`; returns the 0-based index of the matching alternative, its key, the
captured tail, the last matched character and the consumed length. -/
def findProjAlt (sig : Char)
    (cap : List Char → Option (List Char × Char × Nat)) :
    List (List Char) → List Char → Nat →
      Option (Nat × List Char × List Char × Char × Nat)
  | [], _, _ => none
  | k :: keys, s, j =>
    if (k ++ [sig]).isPrefixOf s then
      match cap (s.drop (k.length + 1)) with
      | some (capture, lastc, caplen) =>
        some (j, k, capture, lastc, k.length + 1 + caplen)
      | none => findProjAlt sig cap keys s (j + 1)
    else findProjAlt sig cap keys s (j + 1)

/-- The `(\d+)` capture used by the cross-project issue/MR/milestone-number
alternatives. -/
def digitCap (t : List Char) : Option (List Char × Char × Nat) :=
  let ds := takeDigits t
  if ds = [] then none else some (ds, ds.getLastD '0', ds.length)

/-- The `(".*?")` capture (quotes included in the group) used by the
cross-project milestone-title alternatives. -/
def quotedCap (t : List Char) : Option (List Char × Char × Nat) :=
  match t with
  | '"' :: r =>
    let content := r.takeWhile isTitleChar
    match r.drop content.length with
    | '"' :: _ => some ('"' :: content ++ ['"'], '"', content.length + 2)
    | _ => none
  | _ => none

/-- The callback `(_, p1, p2) => settings.projectmap[p1] + '#' + p2` of the
cross-project issue pass (also used, with sigil `!`, by the cross-project
merge-request pass). -/
def projRefReplacement (projectmap : List (List Char × List Char))
    (p1 p2 : Option (List Char)) : List Char :=
  jsStr (alookup projectmap (jsStr p1)) ++ '#' :: jsStr p2

def tryProjIssueRef (projectmap : List (List Char × List Char)) : Matcher :=
  fun _prev s =>
    match findProjAlt '#' digitCap (projectmap.map Prod.fst) s 0 with
    | some (j, k, ds, lastc, consumed) =>
      let p1 : Option (List Char) := if j = 0 then some k else none
      let p2 : Option (List Char) := if j = 0 then some ds else none
      some (projRefReplacement projectmap p1 p2, lastc, consumed)
    | none => none

def convertProjIssueRefs (projectmap : List (List Char × List Char))
    (s : List Char) : List Char :=
  scan (tryProjIssueRef projectmap) s

def tryProjMrRef (projectmap : List (List Char × List Char)) : Matcher :=
  fun _prev s =>
    match findProjAlt '!' digitCap (projectmap.map Prod.fst) s 0 with
    | some (j, k, ds, lastc, consumed) =>
      let p1 : Option (List Char) := if j = 0 then some k else none
      let p2 : Option (List Char) := if j = 0 then some ds else none
      some (projRefReplacement projectmap p1 p2, lastc, consumed)
    | none => none

def convertProjMrRefs (projectmap : List (List Char × List Char))
    (s : List Char) : List Char :=
  scan (tryProjMrRef projectmap) s

/-- `repoMapLink` from `convertBody`. -/
def repoMapLink (lc : LinkConfig) (projectmap : List (List Char × List Char))
    (repo : List Char) : List Char :=
  lc.githubUrl ++ '/' :: lc.githubOwner ++ '/' :: jsStr (alookup projectmap repo)

def tryProjMilestoneTitleRef (lc : LinkConfig)
    (projectmap : List (List Char × List Char)) : Matcher :=
  fun _prev s =>
    match findProjAlt '%' quotedCap (projectmap.map Prod.fst) s 0 with
    | some (j, k, capture, lastc, consumed) =>
      let p1 : Option (List Char) := if j = 0 then some k else none
      let p2 : Option (List Char) := if j = 0 then some capture else none
      some ("[Milestone \"".toList ++ jsStr p2 ++ "\" in ".toList ++
        jsStr (alookup projectmap (jsStr p1)) ++ "](".toList ++
        repoMapLink lc projectmap (jsStr p1) ++ "/milestones\x7d)".toList,
        lastc, consumed)
    | none => none

def convertProjMilestoneTitleRefs (lc : LinkConfig)
    (projectmap : List (List Char × List Char)) (s : List Char) : List Char :=
  scan (tryProjMilestoneTitleRef lc projectmap) s

def tryProjMilestoneNumRef (lc : LinkConfig)
    (projectmap : List (List Char × List Char)) : Matcher :=
  fun _prev s =>
    match findProjAlt '%' digitCap (projectmap.map Prod.fst) s 0 with
    | some (j, k, ds, lastc, consumed) =>
      let p1 : Option (List Char) := if j = 0 then some k else none
      let p2 : Option (List Char) := if j = 0 then some ds else none
      some ("[Milestone ".toList ++ jsStr p2 ++ " in ".toList ++
        jsStr (alookup projectmap (jsStr p1)) ++ "](".toList ++
        repoMapLink lc projectmap (jsStr p1) ++ "/milestone/".toList ++
        jsStr p2 ++ [')'], lastc, consumed)
    | none => none

def convertProjMilestoneNumRefs (lc : LinkConfig)
    (projectmap : List (List Char × List Char)) (s : List Char) : List Char :=
  scan (tryProjMilestoneNumRef lc projectmap) s

/-!
## The attachment pass (`RepoConverter.convertAttachments`)

Regex: `/(!?)\[([^\]]+)\]\((\/uploads[^)]+)\)/g`.  The code first walks all
matches with `matchAll`, registering `preprocessAttachment(url)` in the
converter's `attachmentMap` (keyed by `data.origin`) and recording the
replacement string per match offset, then performs `body.replace` with the
same regex, substituting by offset.  Because both walks use the same regex
on the same original string they visit exactly the same matches, so a
single scan that collects the matched urls (in order) and emits the
replacements is equivalent.
-/

/-- `AttachmentMetadata` from `storageHelper.ts`. -/
structure AttachmentMetadata where
  origin : List Char
  destination : List Char
  mimeType : Option (List Char) := none
deriving DecidableEq, Repr

abbrev AttachmentMap := List (List Char × AttachmentMetadata)

/-- Parse `(!?)\[([^\]]+)\]\((\/uploads[^)]+)\)` at the head of `s`;
returns the optional `!` prefix, the display name, the captured url and
the consumed length. -/
def tryAttachmentParse (s : List Char) :
    Option (List Char × List Char × List Char × Nat) :=
  let (bang, s1) := match s with
    | '!' :: t => (['!'], t)
    | t => (([] : List Char), t)
  match s1 with
  | '[' :: r =>
    let name := r.takeWhile (fun c => !(c == ']'))
    if name = [] then none
    else
      match r.drop name.length with
      | ']' :: '(' :: r3 =>
        if "/uploads".toList.isPrefixOf r3 then
          let r4 := r3.drop 8
          let u := r4.takeWhile (fun c => !(c == ')'))
          if u = [] then none
          else
            match r4.drop u.length with
            | ')' :: _ =>
              some (bang, name, "/uploads".toList ++ u,
                bang.length + 1 + name.length + 2 + 8 + u.length + 1)
            | _ => none
        else none
      | _ => none
  | _ => none

/-- One pass over the body: collect the matched attachment urls in match
order and emit the rewritten text (the replacement for a match with url
`u` is `prefix[name](preprocess(u).destination)`). -/
def attachScanFuel (preprocess : List Char → AttachmentMetadata) :
    Nat → List Char → List (List Char) × List Char
  | 0, s => ([], s)
  | _ + 1, [] => ([], [])
  | fuel + 1, c :: cs =>
    match tryAttachmentParse (c :: cs) with
    | some (bang, name, url, consumed) =>
      let data := preprocess url
      let repl := bang ++ '[' :: name ++ ']' :: '(' :: data.destination ++ [')']
      let rest := attachScanFuel preprocess fuel ((c :: cs).drop (max 1 consumed))
      (url :: rest.1, repl ++ rest.2)
    | none =>
      let rest := attachScanFuel preprocess fuel cs
      (rest.1, c :: rest.2)

def attachScan (preprocess : List Char → AttachmentMetadata) (s : List Char) :
    List (List Char) × List Char :=
  attachScanFuel preprocess s.length s

/-- `convertAttachments`: registers each matched url's metadata in the
attachment map (`attachmentMap.set(data.origin, data)`, in match order)
and rewrites the body. -/
def convertAttachments (preprocess : List Char → AttachmentMetadata)
    (st : AttachmentMap) (s : List Char) : AttachmentMap × List Char :=
  ((attachScan preprocess s).1.foldl
      (fun m u => mapSet m (preprocess u).origin (preprocess u)) st,
    (attachScan preprocess s).2)

/-- `PassThroughStorageHelper.preprocessAttachment`: rewrite the link to an
absolute URL on the original GitLab host (`host` already normalised to end
with `/`); no byte transfer, no mime type. -/
def passThroughPreprocessAttachment (host projectPath : List Char)
    (url : List Char) : AttachmentMetadata :=
  { origin := url, destination := host ++ projectPath ++ url }

/-!
## `convertBody`

The entity owning the body, reduced to the fields the attribution line
reads.  The formatted creation date and, for inline review notes, the
`createLineRef` diff link are functions of the entity alone (the date via
`toLocaleString`, the link via the note's diff position and the repo
link), so they are carried as precomputed fields of the model.
-/

structure GitLabItemModel where
  authorUsername : Option (List Char)
  createdAtFormatted : Option (List Char)
  lineRef : List Char := []
deriving DecidableEq, Repr

/-- `RepoConverter.addMigrationLine` (returns the body unchanged when the
item carries no author or creation date). -/
def addMigrationLine (item : GitLabItemModel) (str : List Char) : List Char :=
  match item.authorUsername, item.createdAtFormatted with
  | some u, some d =>
    let attribution := "In GitLab by @".toList ++ u ++ " on ".toList ++ d
    let summary := attribution ++
      (if item.lineRef ≠ [] then '\n' :: '\n' :: item.lineRef else [])
    summary ++ '\n' :: '\n' :: str
  | _, _ => str

/-- The converter state and settings read by `convertBody`: the GitHub
coordinates, `settings.usermap` / `settings.projectmap` (in key order),
the three identifier maps (optional: they may not have been built), the
`settings.transfer.attachments` flag and the storage helper's
`preprocessAttachment`. -/
structure RewriteConfig where
  lc : LinkConfig
  usermap : List (List Char × List Char)
  projectmap : List (List Char × List Char)
  issueMap : Option (List (Nat × Nat))
  mrMap : Option (List (Nat × Nat))
  milestoneMap : Option (List (Int × SimpleItem))
  transferAttachments : Bool
  preprocess : List Char → AttachmentMetadata

/-- `RepoConverter.convertBody`: the attribution line followed by the
user-mention, issue, milestone and merge-request reference passes (each
cross-project pass gated on a non-empty project map, the user pass on a
non-empty user map) and finally the attachment pass.  Threads the
converter's `attachmentMap` (the only state `convertBody` mutates). -/
def convertBody (cfg : RewriteConfig) (st : AttachmentMap)
    (item : GitLabItemModel) (str : List Char) (add_line : Bool) :
    AttachmentMap × List Char :=
  let s0 := if add_line then addMigrationLine item str else str
  let s1 := if cfg.usermap ≠ [] then convertUserMentions cfg.usermap s0 else s0
  let s2 := if cfg.projectmap ≠ [] then convertProjIssueRefs cfg.projectmap s1
    else s1
  let s3 := convertIssueRefs cfg.issueMap s2
  let s4 := if cfg.projectmap ≠ [] then
      convertProjMilestoneNumRefs cfg.lc cfg.projectmap
        (convertProjMilestoneTitleRefs cfg.lc cfg.projectmap s3)
    else s3
  let s5 := convertMilestoneTitleRefs cfg.lc cfg.milestoneMap s4
  let s6 := convertMilestoneNumRefs cfg.lc cfg.milestoneMap s5
  let s7 := if cfg.projectmap ≠ [] then convertProjMrRefs cfg.projectmap s6
    else s6
  let s8 := convertMrRefs cfg.mrMap s7
  if cfg.transferAttachments then convertAttachments cfg.preprocess st s8
  else (st, s8)

/-!
## The identifier-map builders

Two code paths build identifier maps: the pre-scan builders on the
converter (`buildMilestoneMap`, `buildIssueMap`, `buildMergeRequestMap`)
and the inline loops of the transfer driver (`transferIssues`,
`transferMergeRequests`), which splice placeholder entities into the
working sequence when a gap is detected.
-/

/-- `Math.max.apply(Math, l)`: the maximum of a list of JS numbers,
`-Infinity` (`⊥`) when the list is empty. -/
def jsMaxApply (l : List Int) : WithBot Int :=
  l.foldl (fun (a : WithBot Int) (x : Int) => max a (x : WithBot Int)) ⊥

/-- JS `array.sort((a, b) => a - b)` on a list of iids (stable,
ascending). -/
def jsSortNats (l : List Nat) : List Nat := l.insertionSort (· ≤ ·)

/-- `RepoConverter.buildIssueMap`: despite its `usePlaceholders` parameter
and the GitLab issue list it downloads, the map it returns is just
`number ↦ number` for every *GitHub* issue already in the destination
repository. -/
def buildIssueMap (_usePlaceholders : Bool) (githubIssues : List Nat)
    (_gitlabIssues : List Nat) : List (Nat × Nat) :=
  githubIssues.foldl (fun m n => mapSet m n n) []

/-- The loop of `RepoConverter.buildMergeRequestMap` over the iid-sorted
merge requests: per position `i` (``expectedIdx`` = `i + 1`), either
`expectedIdx ↦ expectedIdx + lastIssueNumber` (placeholder mode and a gap)
or `iid ↦ expectedIdx + lastIssueNumber`; no placeholder is spliced into
the sequence here. -/
def buildMRMapLoop (lastIssueNumber : WithBot Int) (usePlaceholders : Bool) :
    List Nat → Nat → List (Nat × WithBot Int)
  | [], _ => []
  | iid :: rest, e =>
    (if usePlaceholders && iid != e then (e, ((e : Int) : WithBot Int) + lastIssueNumber)
     else (iid, ((e : Int) : WithBot Int) + lastIssueNumber))
      :: buildMRMapLoop lastIssueNumber usePlaceholders rest (e + 1)

/-- `RepoConverter.buildMergeRequestMap`: throws when `this.issueMap` has
not been initialised; otherwise offsets every destination number by
`Math.max.apply(Math, Array.from(this.issueMap.values()))`.  The GitHub
pull-request list is downloaded but not used by the map construction. -/
def buildMergeRequestMap (usePlaceholders : Bool)
    (issueMap : Option (List (Nat × Nat))) (_pullRequests : List Nat)
    (mergeRequests : List Nat) : Except String (List (Nat × WithBot Int)) :=
  match issueMap with
  | none => .error "issueMap not initialised"
  | some im =>
    let sorted := jsSortNats mergeRequests
    let lastIssueNumber := jsMaxApply (im.map (fun p => (p.2 : Int)))
    .ok (buildMRMapLoop lastIssueNumber usePlaceholders sorted 1)

/-- The loop of `RepoConverter.buildMilestoneMap`: reuse the first GitHub
milestone with the same title, else allocate `++lastMilestoneId` (after
bumping the watermark to `iid - 1` in placeholder mode).  The
`expectedIdx` counter of the source is incremented but never read. -/
def buildMilestoneMapGo (usePlaceholders : Bool) (github : List SimpleItem) :
    Int → List SimpleItem → List (Int × SimpleItem)
  | _, [] => []
  | lastId, m :: rest =>
    match github.find? (fun g => g.title == m.title) with
    | some found =>
      (m.iid, found) :: buildMilestoneMapGo usePlaceholders github
        (max lastId found.iid) rest
    | none =>
      let last' := (if usePlaceholders then max lastId (m.iid - 1) else lastId) + 1
      (m.iid, ⟨last', m.title⟩) :: buildMilestoneMapGo usePlaceholders github last' rest

/-- `RepoConverter.buildMilestoneMap`: the watermark starts at the maximum
GitHub milestone number (0 when there are none). -/
def buildMilestoneMap (usePlaceholders : Bool) (github gitlab : List SimpleItem) :
    List (Int × SimpleItem) :=
  buildMilestoneMapGo usePlaceholders github
    (github.foldl (fun a g => max a g.iid) 0) gitlab

/-- The placeholder-splicing loop shared (up to the stored value) by
`transferIssues` and `transferMergeRequests`: walking the iid-sorted
source entities with `expectedIdx` starting at 1, a gap
(`iid !== expectedIdx` in placeholder mode) splices a placeholder before
the current entity and records `expectedIdx ↦ g expectedIdx`; the current
entity is then re-examined at the next, incremented `expectedIdx`.  The
spliced placeholder itself is never revisited by the loop index.  Fuel
models the JS loop's non-termination when `iid < expectedIdx` keeps the
guard true forever (unreachable for sorted duplicate-free iids). -/
def spliceMapLoop {β : Type} (g : Nat → β) (usePlaceholders : Bool) :
    Nat → List Nat → Nat → Option (List (Nat × β))
  | _, [], _ => some []
  | 0, _ :: _, _ => none
  | fuel + 1, iid :: rest, e =>
    if usePlaceholders && iid != e then
      (spliceMapLoop g usePlaceholders fuel (iid :: rest) (e + 1)).map
        (fun m => (e, g e) :: m)
    else
      (spliceMapLoop g usePlaceholders fuel rest (e + 1)).map
        (fun m => (iid, g e) :: m)

def maxNat (l : List Nat) : Nat := l.foldr max 0

/-- The issue map built inline by `transferIssues` (values are the 1-based
destination numbers; placeholder entries are identity).  The fuel bound
covers every terminating run. -/
def transferIssuesMap (usePlaceholders : Bool) (iids : List Nat) :
    Option (List (Nat × Nat)) :=
  spliceMapLoop (fun e => e) usePlaceholders (maxNat iids + iids.length + 1)
    (jsSortNats iids) 1

/-- The merge-request map built inline by `transferMergeRequests`: same
loop, with every destination number offset by the maximum value of the
(already built) issue map. -/
def transferMergeRequestsMap (usePlaceholders : Bool)
    (issueMapValues : List Nat) (iids : List Nat) :
    Option (List (Nat × WithBot Int)) :=
  let lastIssueNumber := jsMaxApply (issueMapValues.map Int.ofNat)
  spliceMapLoop (fun e => ((e : Int) : WithBot Int) + lastIssueNumber)
    usePlaceholders (maxNat iids + iids.length + 1) (jsSortNats iids) 1

/-- The map-building phase of `migrate()` followed by the transfer phase:
`buildMilestoneMap`, `buildIssueMap` and `buildMergeRequestMap` run (their
results discarded, as in the driver) before any transfer, and an error in
the chain hits the `.catch` that calls `process.exit(1)`, so the run
aborts with no destination write performed.  `destinationWrites` stands
for the writes the subsequent transfer phase would perform. -/
def migrateRun (usePlaceholders : Bool)
    (githubMilestones gitlabMilestones : List SimpleItem)
    (githubIssues gitlabIssues : List Nat)
    (issueMapState : Option (List (Nat × Nat)))
    (pullRequests mergeRequests : List Nat)
    (destinationWrites : List (List Char)) : Except String (List (List Char)) :=
  let _milestoneMap := buildMilestoneMap usePlaceholders githubMilestones gitlabMilestones
  let _issueMap := buildIssueMap usePlaceholders githubIssues gitlabIssues
  match buildMergeRequestMap usePlaceholders issueMapState pullRequests mergeRequests with
  | .error e => .error e
  | .ok _ => .ok destinationWrites

/-- The consecutive integers `e, e+1, …, e+n-1` (expected key set of a
placeholder-mode map). -/
def consRange : Nat → Nat → List Nat
  | _, 0 => []
  | e, n + 1 => e :: consRange (e + 1) n

/-- One run's worth of body rewriting, restricted to the attachment pass:
fold `convertAttachments` over a list of bodies, threading the converter's
`attachmentMap` (initially empty) and collecting the rewritten bodies. -/
def processBodies (preprocess : List Char → AttachmentMetadata)
    (bodies : List (List Char)) : AttachmentMap × List (List Char) :=
  bodies.foldl
    (fun acc b =>
      let r := convertAttachments preprocess acc.1 b
      (r.1, acc.2 ++ [r.2]))
    ([], [])

/-!
# Theorems

## Generic facts about the replace scanner
-/

theorem scanFuel_nil_eq (f : Matcher) (fuel : Nat) (p : Option Char) :
    scanFuel f fuel p [] = [] := by
  cases fuel <;> rfl

/-- If the regex matches at no position of `s`, the pass copies `s`. -/
theorem scanFuel_nomatch (f : Matcher) :
    ∀ (fuel : Nat) (p : Option Char) (s : List Char),
      (∀ q t, t ≠ [] → t <:+ s → f q t = none) → scanFuel f fuel p s = s := by
  intro fuel
  induction fuel with
  | zero => intro p s _; rfl
  | succ n ih =>
    intro p s h
    cases s with
    | nil => rfl
    | cons c cs =>
      have h0 : f p (c :: cs) = none :=
        h p (c :: cs) (by simp) (List.suffix_refl _)
      simp only [scanFuel, h0]
      exact congrArg (c :: ·) (ih (some c) cs
        (fun q t ht hsuf => h q t ht (hsuf.trans (List.suffix_cons c cs))))

theorem prevAfter_cons (c : Char) (pre : List Char) (p : Option Char) :
    prevAfter (c :: pre) p = prevAfter pre (some c) := by
  cases pre with
  | nil => rfl
  | cons d t =>
    rcases h : (d :: t).getLast? with _ | x
    · exact absurd h (by simp)
    · simp [prevAfter, List.getLast?_cons_cons, h]

/-- A block `pre` inside which no match starts is copied verbatim. -/
theorem scanFuel_copy_block (f : Matcher) :
    ∀ (pre : List Char) (fuel : Nat) (p : Option Char) (s : List Char),
      (∀ q u, u ≠ [] → u <:+ pre → f q (u ++ s) = none) →
      scanFuel f fuel p (pre ++ s)
        = pre ++ scanFuel f (fuel - pre.length) (prevAfter pre p) s := by
  intro pre
  induction pre with
  | nil => intro fuel p s _; simp [prevAfter]
  | cons c pre ih =>
    intro fuel p s h
    cases fuel with
    | zero =>
      simp [scanFuel, scanFuel_nil_eq]
    | succ n =>
      have h0 : f p ((c :: pre) ++ s) = none :=
        h p (c :: pre) (by simp) (List.suffix_refl _)
      have h' : ∀ q u, u ≠ [] → u <:+ pre → f q (u ++ s) = none :=
        fun q u hu hsuf => h q u hu (hsuf.trans (List.suffix_cons c pre))
      have step := ih n (some c) s h'
      simp only [List.cons_append] at h0 ⊢
      simp only [scanFuel, h0, step, prevAfter_cons, List.length_cons,
        Nat.succ_sub_succ]

theorem scanFuel_match_step (f : Matcher) (fuel : Nat) (p : Option Char)
    (c : Char) (cs : List Char) (repl : List Char) (lastc : Char) (n : Nat)
    (h : f p (c :: cs) = some (repl, lastc, n)) :
    scanFuel f (fuel + 1) p (c :: cs)
      = repl ++ scanFuel f fuel (some lastc) (List.drop (max 1 n) (c :: cs)) := by
  simp [scanFuel, h]

/-!
## Facts about the identifier-map builders
-/

theorem mem_le_maxNat {x : Nat} : ∀ {l : List Nat}, x ∈ l → x ≤ maxNat l := by
  intro l
  induction l with
  | nil => simp
  | cons y t ih =>
    intro hx
    rcases List.mem_cons.mp hx with h | h
    · subst h; exact le_max_left _ _
    · exact le_trans (ih h) (le_max_right _ _)

theorem jsSortNats_eq_self {l : List Nat} (h : l.Pairwise (· < ·)) :
    jsSortNats l = l :=
  List.Sorted.insertionSort_eq (h.imp le_of_lt)

/-- In placeholder mode and over a strictly ascending iid sequence whose
members are at least `e`, the splice loop terminates and its keys are
exactly the consecutive integers from `e` to the maximal iid. -/
theorem spliceMapLoop_keys_on {β : Type} (g : Nat → β) :
    ∀ (fuel : Nat) (iids : List Nat) (e : Nat),
      1 ≤ e → iids.Pairwise (· < ·) → (∀ x ∈ iids, e ≤ x) →
      maxNat iids + 1 - e ≤ fuel →
      ∃ m, spliceMapLoop g true fuel iids e = some m
        ∧ m.map Prod.fst = consRange e (maxNat iids + 1 - e) := by
  intro fuel
  induction fuel with
  | zero =>
    intro iids e he _ hall hfuel
    cases iids with
    | nil =>
      refine ⟨[], rfl, ?_⟩
      have h0 : maxNat ([] : List Nat) + 1 - e = 0 := by
        simp only [maxNat, List.foldr_nil]; omega
      rw [h0]; rfl
    | cons iid rest =>
      exfalso
      have h1 : iid ≤ maxNat (iid :: rest) := mem_le_maxNat (by simp)
      have h2 : e ≤ iid := hall iid (by simp)
      omega
  | succ n ih =>
    intro iids e he hpw hall hfuel
    cases iids with
    | nil =>
      refine ⟨[], rfl, ?_⟩
      have h0 : maxNat ([] : List Nat) + 1 - e = 0 := by
        simp only [maxNat, List.foldr_nil]; omega
      rw [h0]; rfl
    | cons iid rest =>
      have hei : e ≤ iid := hall iid (by simp)
      have hiM : iid ≤ maxNat (iid :: rest) := mem_le_maxNat (by simp)
      have hMcons : maxNat (iid :: rest) = max iid (maxNat rest) := by
        simp [maxNat]
      have hrest : ∀ x ∈ rest, iid < x := (List.pairwise_cons.mp hpw).1
      by_cases hiid : iid = e
      · subst hiid
        have hall' : ∀ x ∈ rest, iid + 1 ≤ x := fun x hx => hrest x hx
        have hbound : maxNat rest + 1 - (iid + 1) ≤ n := by
          have : maxNat rest ≤ maxNat (iid :: rest) := by
            rw [hMcons]; exact le_max_right _ _
          omega
        obtain ⟨m, hm, hkeys⟩ :=
          ih rest (iid + 1) (by omega) (List.pairwise_cons.mp hpw).2 hall' hbound
        refine ⟨(iid, g iid) :: m, ?_, ?_⟩
        · simp [spliceMapLoop, hm]
        · have harith : maxNat (iid :: rest) + 1 - iid
              = (maxNat rest + 1 - (iid + 1)) + 1 := by
            rw [hMcons]
            rcases le_total iid (maxNat rest) with h | h
            · rw [max_eq_right h]; omega
            · rw [max_eq_left h]; omega
          rw [harith]
          simp only [List.map_cons, hkeys]
          rfl
      · have hlt : e < iid := lt_of_le_of_ne hei (fun h => hiid h.symm)
        have hall' : ∀ x ∈ iid :: rest, e + 1 ≤ x := by
          intro x hx
          rcases List.mem_cons.mp hx with h | h
          · omega
          · have := hrest x h; omega
        have hbound : maxNat (iid :: rest) + 1 - (e + 1) ≤ n := by omega
        obtain ⟨m, hm, hkeys⟩ := ih (iid :: rest) (e + 1) (by omega) hpw hall' hbound
        refine ⟨(e, g e) :: m, ?_, ?_⟩
        · have hcond : (true && (iid != e)) = true := by simp [hiid]
          simp [spliceMapLoop, hcond, hm]
        · have harith : maxNat (iid :: rest) + 1 - e
              = (maxNat (iid :: rest) + 1 - (e + 1)) + 1 := by omega
          rw [harith]
          simp only [List.map_cons, hkeys]
          rfl

/-- Without placeholder mode, the splice loop records exactly the source
iids as keys (in order), whatever the sequence looks like. -/
theorem spliceMapLoop_keys_off {β : Type} (g : Nat → β) :
    ∀ (fuel : Nat) (iids : List Nat) (e : Nat), iids.length ≤ fuel →
      ∃ m, spliceMapLoop g false fuel iids e = some m ∧ m.map Prod.fst = iids := by
  intro fuel
  induction fuel with
  | zero =>
    intro iids e h
    cases iids with
    | nil => exact ⟨[], rfl, rfl⟩
    | cons _ _ => simp at h
  | succ n ih =>
    intro iids e h
    cases iids with
    | nil => exact ⟨[], rfl, rfl⟩
    | cons iid rest =>
      obtain ⟨m, hm, hk⟩ := ih rest (e + 1) (by simp at h; omega)
      refine ⟨(iid, g e) :: m, ?_, by simp [hk]⟩
      simp [spliceMapLoop, hm]

theorem buildMilestoneMapGo_keys (u : Bool) (github : List SimpleItem) :
    ∀ (lastId : Int) (srcs : List SimpleItem),
      (buildMilestoneMapGo u github lastId srcs).map Prod.fst
        = srcs.map SimpleItem.iid := by
  intro lastId srcs
  induction srcs generalizing lastId with
  | nil => rfl
  | cons m rest ih =>
    simp only [buildMilestoneMapGo]
    cases h : github.find? (fun g => g.title == m.title) <;> simp [ih]

/-- Every value recorded by the `buildMergeRequestMap` loop is
`expectedIdx + lastIssueNumber` for some `expectedIdx ≥ e`. -/
theorem buildMRMapLoop_values (L : WithBot Int) (u : Bool) :
    ∀ (l : List Nat) (e : Nat), ∀ kv ∈ buildMRMapLoop L u l e,
      ∃ j : Nat, e ≤ j ∧ kv.2 = ((j : Int) : WithBot Int) + L := by
  intro l
  induction l with
  | nil => simp [buildMRMapLoop]
  | cons iid rest ih =>
    intro e kv hkv
    simp only [buildMRMapLoop, List.mem_cons] at hkv
    rcases hkv with h | h
    · refine ⟨e, le_refl e, ?_⟩
      split at h <;> simp [h]
    · obtain ⟨j, hj, hv⟩ := ih (e + 1) kv h
      exact ⟨j, by omega, hv⟩

theorem jsMaxApply_foldl (l : List Int) :
    ∀ a : Int, ∃ M : Int,
      l.foldl (fun (x : WithBot Int) (y : Int) => max x (y : WithBot Int))
          ((a : Int) : WithBot Int) = (M : WithBot Int)
        ∧ a ≤ M ∧ ∀ x ∈ l, x ≤ M := by
  induction l with
  | nil => intro a; exact ⟨a, rfl, le_refl _, by simp⟩
  | cons x rest ih =>
    intro a
    obtain ⟨M, hM, haM, hall⟩ := ih (max a x)
    refine ⟨M, ?_, le_trans (le_max_left _ _) haM, ?_⟩
    · rw [List.foldl_cons, ← WithBot.coe_max]; exact hM
    · intro y hy
      rcases List.mem_cons.mp hy with h | h
      · subst h; exact le_trans (le_max_right _ _) haM
      · exact hall y h

/-- `Math.max` of a non-empty list of integers is a (finite) integer
bounding every member. -/
theorem jsMaxApply_cons (x : Int) (l : List Int) :
    ∃ M : Int, jsMaxApply (x :: l) = (M : WithBot Int) ∧ ∀ y ∈ x :: l, y ≤ M := by
  obtain ⟨M, hM, hxM, hall⟩ := jsMaxApply_foldl l x
  refine ⟨M, ?_, ?_⟩
  · unfold jsMaxApply
    rw [List.foldl_cons, max_eq_right (bot_le : (⊥ : WithBot Int) ≤ x)]
    exact hM
  · intro y hy
    rcases List.mem_cons.mp hy with h | h
    · subst h; exact hxM
    · exact hall y h

/-!
## Claim C1 — placeholder gap filling and map key sets
-/

/-- **C1 counterexample.**  The claim asserts that after map building with
placeholder mode enabled every integer in `[1, max(iid)]` is a key, for
the issue, merge-proposal and milestone map builders.  For the converter's
pre-scan `buildIssueMap` this fails: with GitLab iids `[1, 3]` (a gapped
sequence) and an empty destination repository, the map built in
placeholder mode is empty, so `1 ∈ [1, 3]` is not a key; the pre-scan
`buildMergeRequestMap` likewise drops the key `3`. -/
theorem c1_counterexample :
    (buildIssueMap true [] [1, 3]).map Prod.fst = []
    ∧ 1 ∉ (buildIssueMap true [] [1, 3]).map Prod.fst
    ∧ 1 ≤ 1 ∧ 1 ≤ maxNat [1, 3]
    ∧ 3 ∉ ((buildMergeRequestMap true (some [(1, 5)]) [] [1, 3]).toOption.getD
        []).map Prod.fst
    ∧ 3 ≤ maxNat [1, 3] := by
  refine ⟨rfl, by decide, by decide, by decide, ?_, by decide⟩
  decide

/-- **C1** (amended).  The `[1, max(iid)]` key-coverage property under
placeholder mode, and the exact-source-iids property without it, hold for
the identifier maps built inline by the `transferIssues` and
`transferMergeRequests` loops (for strictly ascending, positive iid
sequences, which the loops' pre-sorting guarantees for real GitLab data).
They do not hold for the converter's pre-scan builders: `buildIssueMap`
keys the pre-existing destination issue numbers regardless of placeholder
mode, `buildMergeRequestMap` renames a gap position but drops the shifted
iids after it, and `buildMilestoneMap` always keys exactly the source iids
(as the last conjunct proves). -/
theorem c1_transfer_loop_key_coverage (iids : List Nat)
    (hsorted : iids.Pairwise (· < ·)) (hpos : ∀ x ∈ iids, 1 ≤ x) :
    (transferIssuesMap true iids).map (fun m => m.map Prod.fst)
        = some (consRange 1 (maxNat iids))
    ∧ (transferIssuesMap false iids).map (fun m => m.map Prod.fst) = some iids
    ∧ (∀ issueMapValues : List Nat,
        (transferMergeRequestsMap true issueMapValues iids).map
            (fun m => m.map Prod.fst) = some (consRange 1 (maxNat iids))
        ∧ (transferMergeRequestsMap false issueMapValues iids).map
            (fun m => m.map Prod.fst) = some iids)
    ∧ (∀ (u : Bool) (github gitlab : List SimpleItem),
        (buildMilestoneMap u github gitlab).map Prod.fst
          = gitlab.map SimpleItem.iid) := by
  have hone : maxNat iids + 1 - 1 = maxNat iids := by omega
  have hfuel_on : maxNat iids + 1 - 1 ≤ maxNat iids + iids.length + 1 := by omega
  have hfuel_off : iids.length ≤ maxNat iids + iids.length + 1 := by omega
  refine ⟨?_, ?_, ?_, ?_⟩
  · unfold transferIssuesMap
    rw [jsSortNats_eq_self hsorted]
    obtain ⟨m, hm, hk⟩ := spliceMapLoop_keys_on (fun e => e)
      (maxNat iids + iids.length + 1) iids 1 (le_refl 1) hsorted hpos hfuel_on
    rw [hm, hone] at *
    simp [hk, hone]
  · unfold transferIssuesMap
    rw [jsSortNats_eq_self hsorted]
    obtain ⟨m, hm, hk⟩ := spliceMapLoop_keys_off (fun e => e)
      (maxNat iids + iids.length + 1) iids 1 hfuel_off
    rw [hm]
    simp [hk]
  · intro issueMapValues
    constructor
    · unfold transferMergeRequestsMap
      rw [jsSortNats_eq_self hsorted]
      obtain ⟨m, hm, hk⟩ := spliceMapLoop_keys_on
        (fun e => ((e : Int) : WithBot Int) + jsMaxApply (issueMapValues.map Int.ofNat))
        (maxNat iids + iids.length + 1) iids 1 (le_refl 1) hsorted hpos hfuel_on
      rw [hm]
      simp [hk, hone]
    · unfold transferMergeRequestsMap
      rw [jsSortNats_eq_self hsorted]
      obtain ⟨m, hm, hk⟩ := spliceMapLoop_keys_off
        (fun e => ((e : Int) : WithBot Int) + jsMaxApply (issueMapValues.map Int.ofNat))
        (maxNat iids + iids.length + 1) iids 1 hfuel_off
      rw [hm]
      simp [hk]
  · intro u github gitlab
    exact buildMilestoneMapGo_keys u github _ gitlab

/-- Witness for C1 (amended) at the gapped iid sequence `[1, 3]`. -/
theorem c1_witness :
    (transferIssuesMap true [1, 3]).map (fun m => m.map Prod.fst)
        = some (consRange 1 (maxNat [1, 3]))
    ∧ (transferIssuesMap false [1, 3]).map (fun m => m.map Prod.fst)
        = some [1, 3]
    ∧ (transferMergeRequestsMap true [5] [1, 3]).map (fun m => m.map Prod.fst)
        = some (consRange 1 (maxNat [1, 3]))
    ∧ (transferMergeRequestsMap false [5] [1, 3]).map (fun m => m.map Prod.fst)
        = some [1, 3]
    ∧ (buildMilestoneMap true [] [⟨1, ['A']⟩, ⟨3, ['B']⟩]).map Prod.fst
        = [⟨1, ['A']⟩, ⟨3, ['B']⟩].map SimpleItem.iid :=
  have h := c1_transfer_loop_key_coverage [1, 3] (by decide) (by decide)
  ⟨h.1, h.2.1, (h.2.2.1 [5]).1, (h.2.2.1 [5]).2,
    h.2.2.2 true [] [⟨1, ['A']⟩, ⟨3, ['B']⟩]⟩

/-!
## Claim C2 — the merge-proposal destination-number offset
-/

/-- **C2 counterexample.**  The claim asserts that with an empty issue map,
merge-proposal destination numbering starts at 1.  In the code
`Math.max.apply(Math, [])` is `-Infinity` (modelled as `⊥`), so with an
initialised-but-empty issue map the single merge request `!1` is mapped to
`-Infinity`, not to `1`. -/
theorem c2_counterexample :
    buildMergeRequestMap true (some []) [] [1]
        = .ok [(1, (⊥ : WithBot Int))]
    ∧ (⊥ : WithBot Int) ≠ ((1 : Int) : WithBot Int) := by
  exact ⟨rfl, by decide⟩

/-- **C2** (amended).  After `buildMergeRequestMap` succeeds, every mapped
destination number strictly exceeds the maximum value of the issue map
whenever the issue map is non-empty.  When the issue map is initialised
but empty, `Math.max` over no values is `-Infinity` and every mapped
destination is `-Infinity` (`⊥`) — numbering does not start at 1. -/
theorem c2_mr_offset (u : Bool) (im : List (Nat × Nat)) (prs mrs : List Nat)
    (m : List (Nat × WithBot Int))
    (hm : buildMergeRequestMap u (some im) prs mrs = .ok m) :
    (im ≠ [] → ∀ kv ∈ m, jsMaxApply (im.map (fun p => ((p.2 : Nat) : Int))) < kv.2)
    ∧ (im = [] → ∀ kv ∈ m, kv.2 = (⊥ : WithBot Int)) := by
  have hm' : m = buildMRMapLoop (jsMaxApply (im.map (fun p => ((p.2 : Nat) : Int))))
      u (jsSortNats mrs) 1 := by
    unfold buildMergeRequestMap at hm
    simpa using hm.symm
  constructor
  · intro hne kv hkv
    obtain ⟨j, hj, hv⟩ := buildMRMapLoop_values _ u (jsSortNats mrs) 1 kv
      (by rw [← hm']; exact hkv)
    rcases hx : im.map (fun p => ((p.2 : Nat) : Int)) with _ | ⟨x, l⟩
    · exact absurd (List.map_eq_nil_iff.mp hx) hne
    · obtain ⟨M, hM, _⟩ := jsMaxApply_cons x l
      rw [hx, hM]
      rw [hv, hx, hM, ← WithBot.coe_add, WithBot.coe_lt_coe]
      omega
  · intro hemp kv hkv
    subst hemp
    obtain ⟨j, _, hv⟩ := buildMRMapLoop_values _ u (jsSortNats mrs) 1 kv
      (by rw [← hm']; exact hkv)
    rw [hv]
    simp [jsMaxApply, WithBot.add_bot]

/-- Witness for C2 at the one-entry issue map `{1 ↦ 5}` and merge request
iids `[2]`. -/
theorem c2_witness :
    jsMaxApply ([((1 : Nat), (5 : Nat))].map (fun p => ((p.2 : Nat) : Int)))
      < ((6 : Int) : WithBot Int) :=
  (c2_mr_offset true [(1, 5)] [] [2] [(1, ((6 : Int) : WithBot Int))] rfl).1
    (by decide) (1, ((6 : Int) : WithBot Int)) (by decide)

/-!
## Claim C6 — merge-proposal map building requires the issue map
-/

/-- **C6.**  Invoking `buildMergeRequestMap` before the issue map has been
initialised fails with the `issueMap not initialised` error; in the
`migrate()` driver that error is fatal for the run (the `.catch` exits the
process before the transfer phase starts), so no destination write is
performed.  There is no retry: the model has a single attempt, and an
error run produces no write list at all. -/
theorem c6_mr_map_requires_issue_map (usePlaceholders : Bool)
    (ghM glM : List SimpleItem) (ghI glI : List Nat)
    (issueMapState : Option (List (Nat × Nat))) (prs mrs : List Nat)
    (writes : List (List Char)) (h : issueMapState = none) :
    buildMergeRequestMap usePlaceholders issueMapState prs mrs
        = .error "issueMap not initialised"
    ∧ migrateRun usePlaceholders ghM glM ghI glI issueMapState prs mrs writes
        = .error "issueMap not initialised"
    ∧ ∀ w, migrateRun usePlaceholders ghM glM ghI glI issueMapState prs mrs writes
        ≠ .ok w := by
  subst h
  refine ⟨rfl, rfl, ?_⟩
  intro w hw
  simp [migrateRun, buildMergeRequestMap] at hw

/-- Witness for C6 at a concrete uninitialised state. -/
theorem c6_witness :
    buildMergeRequestMap true none [] [1] = .error "issueMap not initialised"
    ∧ migrateRun true [] [] [] [] none [] [1] ["w".toList]
        = .error "issueMap not initialised"
    ∧ migrateRun true [] [] [] [] none [] [1] ["w".toList] ≠ .ok ["w".toList] :=
  have h := c6_mr_map_requires_issue_map true [] [] [] [] none [] [1]
    ["w".toList] rfl
  ⟨h.1, h.2.1, h.2.2 ["w".toList]⟩

/-!
## Claim C8 — milestone map rerun idempotency
-/

/-- Rerunning the milestone map builder against the original destination
list extended (on the right) by the items produced by the first build
reproduces the first build, for pairwise distinct source titles, from any
starting watermarks and past any already-reused block `Cpre` whose titles
are disjoint from the remaining sources. -/
theorem buildMilestoneMapGo_rerun_aux (u : Bool) (D1 : List SimpleItem) :
    ∀ (srcs : List SimpleItem) (l1 l2 : Int) (Cpre : List SimpleItem),
      (srcs.map SimpleItem.title).Nodup →
      (∀ m ∈ srcs, ∀ c ∈ Cpre, c.title ≠ m.title) →
      buildMilestoneMapGo u
          (D1 ++ Cpre ++ (buildMilestoneMapGo u D1 l1 srcs).map Prod.snd)
          l2 srcs
        = buildMilestoneMapGo u D1 l1 srcs := by
  intro srcs
  induction srcs with
  | nil => intro l1 l2 Cpre _ _; rfl
  | cons m rest ih =>
    intro l1 l2 Cpre hnodup hdisj
    rw [List.map_cons, List.nodup_cons] at hnodup
    have hCnone : Cpre.find? (fun g => g.title == m.title) = none := by
      apply List.find?_eq_none.mpr
      intro x hx
      simpa using hdisj m (by simp) x hx
    cases hfind : D1.find? (fun g => g.title == m.title) with
    | some g =>
      have hgt : g.title = m.title := by
        have := List.find?_some hfind
        simpa using this
      have hstep : buildMilestoneMapGo u D1 l1 (m :: rest)
          = (m.iid, g) :: buildMilestoneMapGo u D1 (max l1 g.iid) rest := by
        simp only [buildMilestoneMapGo, hfind]
      rw [hstep]
      have hD2 : ((D1 ++ Cpre ++
            (g :: (buildMilestoneMapGo u D1 (max l1 g.iid) rest).map
              Prod.snd)).find? (fun x => x.title == m.title)) = some g := by
        rw [List.find?_append, List.find?_append, hfind]
        rfl
      have hdisj' : ∀ m' ∈ rest, ∀ c ∈ Cpre ++ [g], c.title ≠ m'.title := by
        intro m' hm' c hc
        rcases List.mem_append.mp hc with h | h
        · exact hdisj m' (by simp [hm']) c h
        · have hcg : c = g := by simpa using h
          subst hcg
          rw [hgt]
          intro habs
          exact hnodup.1 (by rw [habs]; exact List.mem_map_of_mem _ hm')
      have hih := ih (max l1 g.iid) (max l2 g.iid) (Cpre ++ [g]) hnodup.2 hdisj'
      rw [show D1 ++ (Cpre ++ [g]) ++ (buildMilestoneMapGo u D1 (max l1 g.iid)
            rest).map Prod.snd
          = D1 ++ Cpre ++ (g :: (buildMilestoneMapGo u D1 (max l1 g.iid)
            rest).map Prod.snd) by simp] at hih
      calc buildMilestoneMapGo u (D1 ++ Cpre ++
            (g :: (buildMilestoneMapGo u D1 (max l1 g.iid) rest).map Prod.snd))
            l2 (m :: rest)
          = (m.iid, g) :: buildMilestoneMapGo u (D1 ++ Cpre ++
              (g :: (buildMilestoneMapGo u D1 (max l1 g.iid) rest).map
                Prod.snd)) (max l2 g.iid) rest := by
            simp only [buildMilestoneMapGo, hD2]
        _ = (m.iid, g) :: buildMilestoneMapGo u D1 (max l1 g.iid) rest := by
            rw [hih]
    | none =>
      have hstep : buildMilestoneMapGo u D1 l1 (m :: rest)
          = (m.iid,
              (⟨(if u then max l1 (m.iid - 1) else l1) + 1, m.title⟩ : SimpleItem))
            :: buildMilestoneMapGo u D1
                ((if u then max l1 (m.iid - 1) else l1) + 1) rest := by
        simp only [buildMilestoneMapGo, hfind]
      set last' := (if u then max l1 (m.iid - 1) else l1) + 1 with hlast
      rw [hstep]
      have hD2 : ((D1 ++ Cpre ++
            ((⟨last', m.title⟩ : SimpleItem)
              :: (buildMilestoneMapGo u D1 last' rest).map Prod.snd)).find?
              (fun x => x.title == m.title))
          = some (⟨last', m.title⟩ : SimpleItem) := by
        rw [List.find?_append, List.find?_append, hfind, hCnone]
        simp [List.find?, Option.or]
      have hdisj' : ∀ m' ∈ rest, ∀ c ∈ Cpre ++ [(⟨last', m.title⟩ : SimpleItem)],
          c.title ≠ m'.title := by
        intro m' hm' c hc
        rcases List.mem_append.mp hc with h | h
        · exact hdisj m' (by simp [hm']) c h
        · have hcg : c = (⟨last', m.title⟩ : SimpleItem) := by simpa using h
          subst hcg
          intro habs
          exact hnodup.1 (by
            simp only at habs
            rw [habs]
            exact List.mem_map_of_mem _ hm')
      have hih := ih last' (max l2 last') (Cpre ++ [⟨last', m.title⟩])
        hnodup.2 hdisj'
      rw [show D1 ++ (Cpre ++ [(⟨last', m.title⟩ : SimpleItem)])
            ++ (buildMilestoneMapGo u D1 last' rest).map Prod.snd
          = D1 ++ Cpre ++ ((⟨last', m.title⟩ : SimpleItem)
            :: (buildMilestoneMapGo u D1 last' rest).map Prod.snd) by simp] at hih
      calc buildMilestoneMapGo u (D1 ++ Cpre ++
            ((⟨last', m.title⟩ : SimpleItem)
              :: (buildMilestoneMapGo u D1 last' rest).map Prod.snd))
            l2 (m :: rest)
          = (m.iid, (⟨last', m.title⟩ : SimpleItem))
              :: buildMilestoneMapGo u (D1 ++ Cpre ++
                ((⟨last', m.title⟩ : SimpleItem)
                  :: (buildMilestoneMapGo u D1 last' rest).map Prod.snd))
                (max l2 (⟨last', m.title⟩ : SimpleItem).iid) rest := by
            simp only [buildMilestoneMapGo, hD2]
        _ = (m.iid, (⟨last', m.title⟩ : SimpleItem))
              :: buildMilestoneMapGo u D1 last' rest := by
            rw [hih]

/-- **C8 counterexample.**  With two source milestones sharing the title
`T` (iids 1 and 2) and an empty destination, the second build against the
destination extended by the first build's created items maps iid 2 to the
first created item instead of the second: the claim's unconditional
idempotency fails. -/
theorem c8_counterexample :
    buildMilestoneMap false
        ([] ++ (buildMilestoneMap false []
          [⟨1, ['T']⟩, ⟨2, ['T']⟩]).map Prod.snd)
        [⟨1, ['T']⟩, ⟨2, ['T']⟩]
      ≠ buildMilestoneMap false [] [⟨1, ['T']⟩, ⟨2, ['T']⟩] := by
  decide

/-- **C8** (amended).  For pairwise distinct source titles, building the
milestone map again, against the original destination list extended with
all items created by the first build, yields the same map; and
already-migrated detection is by title membership alone: the first entry
built for a source milestone reuses a destination item exactly when the
source title occurs among the destination titles (destination iids play no
role in the detection). -/
theorem c8_milestone_rerun (u : Bool) (D1 srcs : List SimpleItem)
    (hnodup : (srcs.map SimpleItem.title).Nodup) :
    buildMilestoneMap u (D1 ++ (buildMilestoneMap u D1 srcs).map Prod.snd) srcs
        = buildMilestoneMap u D1 srcs
    ∧ (∀ (l : Int) (m : SimpleItem) (rest : List SimpleItem)
        (D : List SimpleItem) (e : Int × SimpleItem) (tail : List (Int × SimpleItem)),
        buildMilestoneMapGo u D l (m :: rest) = e :: tail →
        (e.2 ∈ D ↔ m.title ∈ D.map SimpleItem.title)) := by
  constructor
  · unfold buildMilestoneMap
    have := buildMilestoneMapGo_rerun_aux u D1 srcs
      (D1.foldl (fun a g => max a g.iid) 0)
      ((D1 ++ (buildMilestoneMapGo u D1
        (D1.foldl (fun a g => max a g.iid) 0) srcs).map Prod.snd).foldl
        (fun a g => max a g.iid) 0)
      [] hnodup (by simp)
    simpa using this
  · intro l m rest D e tail hbuild
    cases hfind : D.find? (fun g => g.title == m.title) with
    | some g =>
      have hgD : g ∈ D := List.mem_of_find?_eq_some hfind
      have hgt : g.title = m.title := by
        have := List.find?_some hfind
        simpa using this
      have he : e = (m.iid, g) := by
        simp only [buildMilestoneMapGo, hfind] at hbuild
        exact (List.cons.injEq _ _ _ _ ▸ hbuild).1.symm ▸ rfl
      constructor
      · intro _
        exact List.mem_map.mpr ⟨g, hgD, hgt⟩
      · intro _
        rw [he]
        exact hgD
    | none =>
      have hD : ∀ x ∈ D, ¬ (x.title == m.title) = true :=
        List.find?_eq_none.mp hfind
      have he : e = (m.iid,
          (⟨(if u then max l (m.iid - 1) else l) + 1, m.title⟩ : SimpleItem)) := by
        simp only [buildMilestoneMapGo, hfind] at hbuild
        exact (List.cons.injEq _ _ _ _ ▸ hbuild).1.symm ▸ rfl
      constructor
      · intro hmem
        exfalso
        rw [he] at hmem
        exact hD _ hmem (by simp)
      · intro hmem
        exfalso
        obtain ⟨g, hgD, hgt⟩ := List.mem_map.mp hmem
        exact hD g hgD (by simp [hgt])

/-- Witness for C8 (amended) at distinct titles `A`, `B` (hypothesis
discharged by `decide`); the second conjunct is applied at the first step
of that same build. -/
theorem c8_witness :
    buildMilestoneMap true ([] ++ (buildMilestoneMap true []
        [⟨1, ['A']⟩, ⟨3, ['B']⟩]).map Prod.snd) [⟨1, ['A']⟩, ⟨3, ['B']⟩]
      = buildMilestoneMap true [] [⟨1, ['A']⟩, ⟨3, ['B']⟩] :=
  (c8_milestone_rerun true [] [⟨1, ['A']⟩, ⟨3, ['B']⟩] (by decide)).1

/-!
## Facts about the individual rewrite passes
-/

theorem tryIssueRef_none_of_head (im : Option (List (Nat × Nat)))
    (q : Option Char) (c : Char) (cs : List Char) (h : c ≠ '#') :
    tryIssueRef im q (c :: cs) = none := by
  simp [tryIssueRef, h]

theorem tryIssueRef_none_of_prev_none (im : Option (List (Nat × Nat)))
    (s : List Char) : tryIssueRef im none s = none := by
  cases s with
  | nil => rfl
  | cons c cs => by_cases h : c = '#' <;> simp [tryIssueRef, h]

theorem tryMrRef_none_of_head (mm : Option (List (Nat × Nat)))
    (q : Option Char) (c : Char) (cs : List Char) (h : c ≠ '!') :
    tryMrRef mm q (c :: cs) = none := by
  simp [tryMrRef, h]

theorem tryMrRef_none_of_prev_none (mm : Option (List (Nat × Nat)))
    (s : List Char) : tryMrRef mm none s = none := by
  cases s with
  | nil => rfl
  | cons c cs => by_cases h : c = '!' <;> simp [tryMrRef, h]

theorem tryMilestoneNumRef_none_of_head (lc : LinkConfig)
    (mm : Option (List (Int × SimpleItem))) (q : Option Char) (c : Char)
    (cs : List Char) (h : c ≠ '%') :
    tryMilestoneNumRef lc mm q (c :: cs) = none := by
  simp [tryMilestoneNumRef, h]

theorem tryMilestoneNumRef_none_of_prev_none (lc : LinkConfig)
    (mm : Option (List (Int × SimpleItem))) (s : List Char) :
    tryMilestoneNumRef lc mm none s = none := by
  cases s with
  | nil => rfl
  | cons c cs => by_cases h : c = '%' <;> simp [tryMilestoneNumRef, h]

theorem tryMilestoneTitleRef_none_of_head (lc : LinkConfig)
    (mm : Option (List (Int × SimpleItem))) (q : Option Char) (c : Char)
    (cs : List Char) (h : c ≠ '%') :
    tryMilestoneTitleRef lc mm q (c :: cs) = none := by
  cases cs with
  | nil => rfl
  | cons d t => simp [tryMilestoneTitleRef, h]

theorem tryMilestoneTitleRef_none_of_prev_none (lc : LinkConfig)
    (mm : Option (List (Int × SimpleItem))) (s : List Char) :
    tryMilestoneTitleRef lc mm none s = none := by
  cases s with
  | nil => rfl
  | cons c cs =>
    cases cs with
    | nil => rfl
    | cons d t =>
      by_cases h : c = '%' ∧ d = '"' <;> simp [tryMilestoneTitleRef, h]

theorem scan_nomatch (f : Matcher) (s : List Char)
    (h : ∀ q t, t ≠ [] → t <:+ s → f q t = none) : scan f s = s :=
  scanFuel_nomatch f s.length none s h

theorem digit_ne_sigils {c : Char} (h : c.isDigit = true) :
    c ≠ '#' ∧ c ≠ '%' ∧ c ≠ '!' ∧ c ≠ '"' := by
  refine ⟨?_, ?_, ?_, ?_⟩ <;> rintro rfl <;> simp at h

/-- A match attempt at position 0 fails on the lookbehind; when nothing
matches later either, the pass is the identity. -/
theorem scan_head_block (f : Matcher) (c : Char) (cs : List Char)
    (h0 : f none (c :: cs) = none)
    (h : ∀ q t, t ≠ [] → t <:+ cs → f q t = none) :
    scan f (c :: cs) = c :: cs := by
  unfold scan
  simp only [List.length_cons, scanFuel, h0]
  exact congrArg (c :: ·) (scanFuel_nomatch f cs.length (some c) cs h)

theorem drop_len_append {α : Type} : ∀ (l₁ l₂ : List α),
    (l₁ ++ l₂).drop l₁.length = l₂ := by
  intro l₁ l₂
  induction l₁ with
  | nil => rfl
  | cons a t ih => simp [ih]

theorem takeDigits_append (ds post : List Char)
    (hds : ∀ c ∈ ds, c.isDigit = true)
    (hpost : ∀ c, post.head? = some c → c.isDigit = false) :
    takeDigits (ds ++ post) = ds := by
  induction ds with
  | nil =>
    cases post with
    | nil => rfl
    | cons c t =>
      have := hpost c rfl
      simp [takeDigits, List.takeWhile, this]
  | cons c t ih =>
    have hc := hds c (by simp)
    have ht := ih (fun x hx => hds x (by simp [hx]))
    simp only [takeDigits, List.cons_append, List.takeWhile] at ht ⊢
    simp [hc, ht]

/-- Generic single-occurrence fact for the lookbehind sigil passes: a
reference `sig·ds` preceded by a block that ends in a non-word character
and contains no sigil, and followed by text that starts with no digit and
contains no sigil, is rewritten to exactly the replacement the matcher
produces, and the surrounding text is untouched. -/
theorem scan_single_sigil (f : Matcher) (sig : Char)
    (hhead : ∀ q c cs, c ≠ sig → f q (c :: cs) = none)
    (pre ds post repl : List Char) (lastd : Char)
    (hpre : pre ≠ [])
    (hlast : ∀ c, pre.getLast? = some c → isWordCharB c = false)
    (hsigpre : sig ∉ pre) (hsigpost : sig ∉ post)
    (hmatch : ∀ c, isWordCharB c = false →
      f (some c) (sig :: (ds ++ post)) = some (repl, lastd, 1 + ds.length)) :
    scan f (pre ++ sig :: (ds ++ post)) = pre ++ repl ++ post := by
  obtain ⟨c0, hc0⟩ : ∃ c0, pre.getLast? = some c0 := by
    cases hp : pre.getLast? with
    | none => exact absurd (List.getLast?_eq_none_iff.mp hp) hpre
    | some c0 => exact ⟨c0, rfl⟩
  have hprev : prevAfter pre none = some c0 := by simp [prevAfter, hc0]
  have hcopy := scanFuel_copy_block f pre (pre ++ sig :: (ds ++ post)).length
    none (sig :: (ds ++ post)) ?hcond
  case hcond =>
    intro q u hu hsuf
    cases u with
    | nil => exact absurd rfl hu
    | cons c cs =>
      exact hhead q c _ (fun hc => hsigpre (hc ▸ hsuf.subset (by simp)))
  unfold scan
  rw [hcopy, hprev]
  have hlen : (pre ++ sig :: (ds ++ post)).length - pre.length
      = (ds.length + post.length) + 1 := by
    simp [List.length_append]
  rw [hlen]
  have hm := hmatch c0 (hlast c0 hc0)
  rw [scanFuel_match_step f _ (some c0) sig (ds ++ post) repl lastd
    (1 + ds.length) hm]
  have hdrop : (sig :: (ds ++ post)).drop (max 1 (1 + ds.length)) = post := by
    have h1 : max 1 (1 + ds.length) = 1 + ds.length := by omega
    rw [h1]
    have : (1 + ds.length) = ds.length + 1 := by omega
    rw [this]
    simp only [List.drop_succ_cons]
    exact drop_len_append ds post
  rw [hdrop]
  have hrest : scanFuel f (ds.length + post.length) (some lastd) post = post := by
    apply scanFuel_nomatch
    intro q t ht hsuf
    cases t with
    | nil => exact absurd rfl ht
    | cons c cs =>
      exact hhead q c _ (fun hc => hsigpost (hc ▸ hsuf.subset (by simp)))
  rw [hrest, List.append_assoc]

theorem convertIssueRefs_no_hash (im : Option (List (Nat × Nat)))
    (s : List Char) (h : '#' ∉ s) : convertIssueRefs im s = s := by
  apply scan_nomatch
  intro q u hu hsuf
  cases u with
  | nil => exact absurd rfl hu
  | cons c cs =>
    exact tryIssueRef_none_of_head im q c cs
      (fun hc => h (hc ▸ hsuf.subset (by simp)))

theorem convertIssueRefs_leading_hash (im : Option (List (Nat × Nat)))
    (rest : List Char) (h : '#' ∉ rest) :
    convertIssueRefs im ('#' :: rest) = '#' :: rest := by
  apply scan_head_block
  · exact tryIssueRef_none_of_prev_none im _
  · intro q u hu hsuf
    cases u with
    | nil => exact absurd rfl hu
    | cons c cs =>
      exact tryIssueRef_none_of_head im q c cs
        (fun hc => h (hc ▸ hsuf.subset (by simp)))

theorem convertMrRefs_no_bang (mrm : Option (List (Nat × Nat)))
    (s : List Char) (h : '!' ∉ s) : convertMrRefs mrm s = s := by
  apply scan_nomatch
  intro q u hu hsuf
  cases u with
  | nil => exact absurd rfl hu
  | cons c cs =>
    exact tryMrRef_none_of_head mrm q c cs
      (fun hc => h (hc ▸ hsuf.subset (by simp)))

theorem convertMrRefs_leading_bang (mrm : Option (List (Nat × Nat)))
    (rest : List Char) (h : '!' ∉ rest) :
    convertMrRefs mrm ('!' :: rest) = '!' :: rest := by
  apply scan_head_block
  · exact tryMrRef_none_of_prev_none mrm _
  · intro q u hu hsuf
    cases u with
    | nil => exact absurd rfl hu
    | cons c cs =>
      exact tryMrRef_none_of_head mrm q c cs
        (fun hc => h (hc ▸ hsuf.subset (by simp)))

theorem convertMilestoneNumRefs_no_pct (lc : LinkConfig)
    (mm : Option (List (Int × SimpleItem))) (s : List Char) (h : '%' ∉ s) :
    convertMilestoneNumRefs lc mm s = s := by
  apply scan_nomatch
  intro q u hu hsuf
  cases u with
  | nil => exact absurd rfl hu
  | cons c cs =>
    exact tryMilestoneNumRef_none_of_head lc mm q c cs
      (fun hc => h (hc ▸ hsuf.subset (by simp)))

theorem convertMilestoneNumRefs_leading_pct (lc : LinkConfig)
    (mm : Option (List (Int × SimpleItem))) (rest : List Char)
    (h : '%' ∉ rest) :
    convertMilestoneNumRefs lc mm ('%' :: rest) = '%' :: rest := by
  apply scan_head_block
  · exact tryMilestoneNumRef_none_of_prev_none lc mm _
  · intro q u hu hsuf
    cases u with
    | nil => exact absurd rfl hu
    | cons c cs =>
      exact tryMilestoneNumRef_none_of_head lc mm q c cs
        (fun hc => h (hc ▸ hsuf.subset (by simp)))

theorem convertMilestoneTitleRefs_no_pct (lc : LinkConfig)
    (mm : Option (List (Int × SimpleItem))) (s : List Char) (h : '%' ∉ s) :
    convertMilestoneTitleRefs lc mm s = s := by
  apply scan_nomatch
  intro q u hu hsuf
  cases u with
  | nil => exact absurd rfl hu
  | cons c cs =>
    exact tryMilestoneTitleRef_none_of_head lc mm q c cs
      (fun hc => h (hc ▸ hsuf.subset (by simp)))

theorem convertMilestoneTitleRefs_leading_pct (lc : LinkConfig)
    (mm : Option (List (Int × SimpleItem))) (rest : List Char)
    (h : '%' ∉ rest) :
    convertMilestoneTitleRefs lc mm ('%' :: rest) = '%' :: rest := by
  apply scan_head_block
  · exact tryMilestoneTitleRef_none_of_prev_none lc mm _
  · intro q u hu hsuf
    cases u with
    | nil => exact absurd rfl hu
    | cons c cs =>
      exact tryMilestoneTitleRef_none_of_head lc mm q c cs
        (fun hc => h (hc ▸ hsuf.subset (by simp)))

/-- `convertBody` with empty user and project maps and attachment transfer
disabled is exactly the four same-project passes in source order. -/
theorem convertBody_plain (lc : LinkConfig) (im mrm : Option (List (Nat × Nat)))
    (mm : Option (List (Int × SimpleItem)))
    (pp : List Char → AttachmentMetadata) (st : AttachmentMap)
    (item : GitLabItemModel) (s : List Char) :
    (convertBody ⟨lc, [], [], im, mrm, mm, false, pp⟩ st item s false).2
      = convertMrRefs mrm (convertMilestoneNumRefs lc mm
          (convertMilestoneTitleRefs lc mm (convertIssueRefs im s))) := by
  simp [convertBody]

/-!
## Claim C3 — same-project issue reference rewriting
-/

/-- **C3.**  For a `#n` reference preceded by a non-word character: when
the issue map has `n ↦ m` the reference is rewritten to `#m`; when `n` is
absent (or the map is uninitialised) the reference is emitted unchanged
and nothing fails.  Stated as: the `issueReplacer` equations, the general
single-occurrence behaviour of the `(?<=\W)#(\d+)` pass over any
surrounding text free of further `#`, and the two round-trip examples. -/
theorem c3_issue_reference_rewrite :
    (∀ (im : List (Nat × Nat)) (ds : List Char) (v : Nat),
      alookup im (digitsToNat ds) = some v →
      issueReplacer (some im) ds = '#' :: natToChars v)
    ∧ (∀ (im : List (Nat × Nat)) (ds : List Char),
      alookup im (digitsToNat ds) = none →
      issueReplacer (some im) ds = '#' :: ds)
    ∧ (∀ (im : Option (List (Nat × Nat))) (pre ds post : List Char),
      pre ≠ [] → (∀ c, pre.getLast? = some c → isWordCharB c = false) →
      '#' ∉ pre → ds ≠ [] → (∀ c ∈ ds, c.isDigit = true) →
      (∀ c, post.head? = some c → c.isDigit = false) → '#' ∉ post →
      convertIssueRefs im (pre ++ '#' :: (ds ++ post))
        = pre ++ issueReplacer im ds ++ post)
    ∧ convertIssueRefs (some [(3, 42)]) "see #3".toList = "see #42".toList
    ∧ convertIssueRefs (some [(3, 42)]) "see #99".toList = "see #99".toList := by
  refine ⟨?_, ?_, ?_, by decide, by decide⟩
  · intro im ds v h; simp [issueReplacer, h]
  · intro im ds h; simp [issueReplacer, h]
  · intro im pre ds post hpre hlast hsigpre hds0 hds hpost hsigpost
    unfold convertIssueRefs
    apply scan_single_sigil (tryIssueRef im) '#'
      (fun q c cs hc => tryIssueRef_none_of_head im q c cs hc)
      pre ds post _ (ds.getLastD '0') hpre hlast hsigpre hsigpost
    intro c hwc
    simp [tryIssueRef, hwc, takeDigits_append ds post hds hpost, hds0]

/-- Witness for C3's general conjunct at `"see #3"` (the map sends 3 to 42). -/
theorem c3_witness :
    convertIssueRefs (some [(3, 42)]) ("see ".toList ++ '#' :: (['3'] ++ []))
      = "see ".toList ++ issueReplacer (some [(3, 42)]) ['3'] ++ [] :=
  c3_issue_reference_rewrite.2.2.1 (some [(3, 42)]) "see ".toList ['3'] []
    (by decide)
    (by
      intro c hc
      have h : ("see ".toList.getLast?) = some ' ' := rfl
      rw [h] at hc
      cases hc
      decide)
    (by decide) (by decide) (by decide)
    (fun c hc => nomatch hc)
    (by decide)

/-!
## Claim C5 — milestone deleted-reference rendering
-/

/-- **C5 counterexample.**  The claim's example `rewrite("%42", …)` with no
milestone-map entry for 42 does *not* yield a deleted-milestone string:
the `(?<=\W)%(\d+)` pattern needs a preceding non-word character, which
position 0 cannot supply, so when no attribution line is prepended the
whole-body reference `"%42"` passes through bare. -/
theorem c5_counterexample :
    (convertBody
        ⟨⟨"https://github.com".toList, "own".toList, "repo".toList⟩,
          [], [], none, none, some [], false,
          passThroughPreprocessAttachment [] []⟩
        [] ⟨none, none, []⟩ "%42".toList false).2 = "%42".toList
    ∧ "%42".toList
        ≠ squote :: ("Reference to deleted milestone %".toList ++ "42".toList)
            ++ [squote] := by
  exact ⟨by decide, by decide⟩

/-- **C5** (amended).  For every `%n` milestone reference *preceded by a
non-word character* whose target is not found in the milestone map,
rewriting yields the quoted string `'Reference to deleted milestone %n'`,
which is distinguishable from the markdown link `[title](…/milestone/k)`
produced for a resolved reference (they start with different characters);
a `%n` at the very start of the text, with no attribution line prepended,
is not matched and passes through bare. -/
theorem c5_milestone_deleted_rendering :
    (∀ (lc : LinkConfig) (mm : List (Int × SimpleItem)) (ds : List Char),
      alookup mm (Int.ofNat (digitsToNat ds)) = none → ds ≠ [] →
      milestoneReplacer lc (some mm) ds [] []
        = squote :: ("Reference to deleted milestone %".toList ++ ds)
            ++ [squote])
    ∧ (∀ (lc : LinkConfig) (ds : List Char), ds ≠ [] →
      milestoneReplacer lc none ds [] []
        = squote :: ("Reference to deleted milestone %".toList ++ ds)
            ++ [squote])
    ∧ (∀ (lc : LinkConfig) (mm : List (Int × SimpleItem)) (ds : List Char)
        (mi : SimpleItem),
      alookup mm (Int.ofNat (digitsToNat ds)) = some mi → ds ≠ [] →
      milestoneReplacer lc (some mm) ds [] []
        = '[' :: mi.title ++ ']' :: '(' ::
            (lc.githubUrl ++ '/' :: lc.githubOwner ++ '/' :: lc.githubRepo)
            ++ "/milestone/".toList ++ intToChars mi.iid ++ [')'])
    ∧ squote ≠ '['
    ∧ (∀ (lc : LinkConfig) (mm : Option (List (Int × SimpleItem)))
        (pre ds post : List Char),
      pre ≠ [] → (∀ c, pre.getLast? = some c → isWordCharB c = false) →
      '%' ∉ pre → ds ≠ [] → (∀ c ∈ ds, c.isDigit = true) →
      (∀ c, post.head? = some c → c.isDigit = false) → '%' ∉ post →
      convertMilestoneNumRefs lc mm (pre ++ '%' :: (ds ++ post))
        = pre ++ milestoneReplacer lc mm ds [] [] ++ post)
    ∧ (convertBody
        ⟨⟨"https://github.com".toList, "own".toList, "repo".toList⟩,
          [], [], none, none, some [], false,
          passThroughPreprocessAttachment [] []⟩
        [] ⟨none, none, []⟩ " %42".toList false).2
      = ' ' :: (squote :: ("Reference to deleted milestone %".toList
          ++ "42".toList) ++ [squote]) := by
  refine ⟨?_, ?_, ?_, by decide, ?_, by decide⟩
  · intro lc mm ds h hds0
    unfold milestoneReplacer
    rw [show milestoneLookup (some mm) ds [] = none by
      simp [milestoneLookup, hds0]; exact h]
    simp [hds0]
  · intro lc ds hds0
    unfold milestoneReplacer
    rw [show milestoneLookup none ds [] = none from rfl]
    simp [hds0]
  · intro lc mm ds mi h hds0
    unfold milestoneReplacer
    rw [show milestoneLookup (some mm) ds [] = some mi by
      simp [milestoneLookup, hds0]; exact h]
    simp
  · intro lc mm pre ds post hpre hlast hsigpre hds0 hds hpost hsigpost
    unfold convertMilestoneNumRefs
    apply scan_single_sigil (tryMilestoneNumRef lc mm) '%'
      (fun q c cs hc => tryMilestoneNumRef_none_of_head lc mm q c cs hc)
      pre ds post _ (ds.getLastD '0') hpre hlast hsigpre hsigpost
    intro c hwc
    simp [tryMilestoneNumRef, hwc, takeDigits_append ds post hds hpost, hds0]

/-- Witness for C5's general conjunct at `" %42"` over an empty milestone
map. -/
theorem c5_witness :
    convertMilestoneNumRefs
        ⟨"https://github.com".toList, "own".toList, "repo".toList⟩ (some [])
        ([' '] ++ '%' :: ("42".toList ++ []))
      = [' '] ++ milestoneReplacer
          ⟨"https://github.com".toList, "own".toList, "repo".toList⟩
          (some []) "42".toList [] [] ++ [] :=
  c5_milestone_deleted_rendering.2.2.2.2.1
    ⟨"https://github.com".toList, "own".toList, "repo".toList⟩ (some [])
    [' '] "42".toList []
    (by decide)
    (by intro c hc; cases hc; decide)
    (by decide) (by decide) (by decide)
    (fun c hc => nomatch hc)
    (by decide)

/-!
## Claim C10 — a leading same-project reference is never rewritten
-/

/-- **C10.**  With no attribution line prepended and no user/project-map
passes in play, a same-project reference (`#n`, `%n`, `%"title"` or `!n`)
standing at the very start of the body is never rewritten, whatever the
identifier maps contain: every same-project pattern demands a non-word
character immediately before the sigil, which position 0 cannot supply.
(For the quoted form the title is assumed free of the `#`, `%`, `!`
sigils, so no other pass can touch its interior either.) -/
theorem c10_leading_reference_not_rewritten (lc : LinkConfig)
    (im mrm : Option (List (Nat × Nat))) (mm : Option (List (Int × SimpleItem)))
    (pp : List Char → AttachmentMetadata) (st : AttachmentMap)
    (item : GitLabItemModel) (ds t : List Char)
    (_hds0 : ds ≠ []) (hds : ∀ c ∈ ds, c.isDigit = true)
    (ht1 : '#' ∉ t) (ht2 : '%' ∉ t) (ht3 : '!' ∉ t) :
    (convertBody ⟨lc, [], [], im, mrm, mm, false, pp⟩ st item
        ('#' :: ds) false).2 = '#' :: ds
    ∧ (convertBody ⟨lc, [], [], im, mrm, mm, false, pp⟩ st item
        ('%' :: ds) false).2 = '%' :: ds
    ∧ (convertBody ⟨lc, [], [], im, mrm, mm, false, pp⟩ st item
        ('!' :: ds) false).2 = '!' :: ds
    ∧ (convertBody ⟨lc, [], [], im, mrm, mm, false, pp⟩ st item
        ('%' :: '"' :: (t ++ ['"'])) false).2 = '%' :: '"' :: (t ++ ['"']) := by
  have h1 : ('#' : Char) ∉ ds := fun hc => absurd rfl (digit_ne_sigils (hds _ hc)).1
  have h2 : ('%' : Char) ∉ ds := fun hc => absurd rfl (digit_ne_sigils (hds _ hc)).2.1
  have h3 : ('!' : Char) ∉ ds :=
    fun hc => absurd rfl (digit_ne_sigils (hds _ hc)).2.2.1
  have htail : ∀ (c : Char), c ∉ t → c ≠ '"' → c ∉ ('"' :: (t ++ ['"'])) := by
    intro c hct hcq hc
    rcases List.mem_cons.mp hc with h | h
    · exact hcq h
    · rcases List.mem_append.mp h with h | h
      · exact hct h
      · exact hcq (by simpa using h)
  refine ⟨?_, ?_, ?_, ?_⟩
  · rw [convertBody_plain, convertIssueRefs_leading_hash im ds h1,
      convertMilestoneTitleRefs_no_pct lc mm _ (by
        intro hc
        rcases List.mem_cons.mp hc with h | h
        · exact absurd h (by decide)
        · exact h2 h),
      convertMilestoneNumRefs_no_pct lc mm _ (by
        intro hc
        rcases List.mem_cons.mp hc with h | h
        · exact absurd h (by decide)
        · exact h2 h),
      convertMrRefs_no_bang mrm _ (by
        intro hc
        rcases List.mem_cons.mp hc with h | h
        · exact absurd h (by decide)
        · exact h3 h)]
  · rw [convertBody_plain, convertIssueRefs_no_hash im _ (by
        intro hc
        rcases List.mem_cons.mp hc with h | h
        · exact absurd h (by decide)
        · exact h1 h),
      convertMilestoneTitleRefs_leading_pct lc mm ds h2,
      convertMilestoneNumRefs_leading_pct lc mm ds h2,
      convertMrRefs_no_bang mrm _ (by
        intro hc
        rcases List.mem_cons.mp hc with h | h
        · exact absurd h (by decide)
        · exact h3 h)]
  · rw [convertBody_plain, convertIssueRefs_no_hash im _ (by
        intro hc
        rcases List.mem_cons.mp hc with h | h
        · exact absurd h (by decide)
        · exact h1 h),
      convertMilestoneTitleRefs_no_pct lc mm _ (by
        intro hc
        rcases List.mem_cons.mp hc with h | h
        · exact absurd h (by decide)
        · exact h2 h),
      convertMilestoneNumRefs_no_pct lc mm _ (by
        intro hc
        rcases List.mem_cons.mp hc with h | h
        · exact absurd h (by decide)
        · exact h2 h),
      convertMrRefs_leading_bang mrm ds h3]
  · rw [convertBody_plain, convertIssueRefs_no_hash im _ (by
        intro hc
        rcases List.mem_cons.mp hc with h | h
        · exact absurd h (by decide)
        · exact htail '#' ht1 (by decide) h),
      convertMilestoneTitleRefs_leading_pct lc mm _
        (htail '%' ht2 (by decide)),
      convertMilestoneNumRefs_leading_pct lc mm _
        (htail '%' ht2 (by decide)),
      convertMrRefs_no_bang mrm _ (by
        intro hc
        rcases List.mem_cons.mp hc with h | h
        · exact absurd h (by decide)
        · exact htail '!' ht3 (by decide) h)]

/-- Witness for C10 at the references `#7`, `%7`, `!7` and `%"gone"` over
non-trivial maps (7 is mapped everywhere, yet the leading references pass
through). -/
theorem c10_witness :
    (convertBody ⟨⟨"u".toList, "o".toList, "r".toList⟩, [], [],
        some [(7, 9)], some [(7, 9)], some [(7, ⟨3, "gone".toList⟩)], false,
        passThroughPreprocessAttachment [] []⟩ [] ⟨none, none, []⟩
        ('#' :: "7".toList) false).2 = '#' :: "7".toList
    ∧ (convertBody ⟨⟨"u".toList, "o".toList, "r".toList⟩, [], [],
        some [(7, 9)], some [(7, 9)], some [(7, ⟨3, "gone".toList⟩)], false,
        passThroughPreprocessAttachment [] []⟩ [] ⟨none, none, []⟩
        ('%' :: "7".toList) false).2 = '%' :: "7".toList
    ∧ (convertBody ⟨⟨"u".toList, "o".toList, "r".toList⟩, [], [],
        some [(7, 9)], some [(7, 9)], some [(7, ⟨3, "gone".toList⟩)], false,
        passThroughPreprocessAttachment [] []⟩ [] ⟨none, none, []⟩
        ('!' :: "7".toList) false).2 = '!' :: "7".toList
    ∧ (convertBody ⟨⟨"u".toList, "o".toList, "r".toList⟩, [], [],
        some [(7, 9)], some [(7, 9)], some [(7, ⟨3, "gone".toList⟩)], false,
        passThroughPreprocessAttachment [] []⟩ [] ⟨none, none, []⟩
        ('%' :: '"' :: ("gone".toList ++ ['"'])) false).2
      = '%' :: '"' :: ("gone".toList ++ ['"']) :=
  c10_leading_reference_not_rewritten
    ⟨"u".toList, "o".toList, "r".toList⟩ (some [(7, 9)]) (some [(7, 9)])
    (some [(7, ⟨3, "gone".toList⟩)]) (passThroughPreprocessAttachment [] [])
    [] ⟨none, none, []⟩ "7".toList "gone".toList
    (by decide) (by decide) (by decide) (by decide) (by decide)

/-!
## Claim C4 — cross-project issue references
-/

/-- **C4 counterexample.**  The cross-project pass builds the alternation
`(a)#(\d+)|(b)#(\d+)` but its callback reads only the first alternative's
capture groups, so with the two-key project map `{a ↦ x, b ↦ y}` the
reference `b#5` — `b` *is* a key of the map — is rewritten to
`undefined#undefined`, not to `y#5`. -/
theorem c4_counterexample :
    (convertBody ⟨⟨"u".toList, "o".toList, "r".toList⟩, [],
        [("a".toList, "x".toList), ("b".toList, "y".toList)],
        some [], none, none, false, passThroughPreprocessAttachment [] []⟩
        [] ⟨none, none, []⟩ "b#5".toList false).2
      = "undefined#undefined".toList
    ∧ "undefined#undefined".toList ≠ "y#5".toList := by
  exact ⟨by decide, by decide⟩

/-- **C4** (amended).  A cross-project reference `project#n` is rewritten
to `<mappedProject>#n`, with `n` preserved verbatim and never resolved
through the local issue map, when the matched project is the *first* key
of the configured project map (in particular always for single-entry
maps): the concrete conjunct rewrites `otherorg/repo#5` to `dest/repo#5`
even though the issue map sends 5 to 99.  For any later key the callback
reads only the first alternative's capture groups, which are undefined,
and produces `undefined#undefined`. -/
theorem c4_cross_project_rewrite :
    (∀ (pm : List (List Char × List Char)) (k w ds : List Char),
      alookup pm k = some w →
      projRefReplacement pm (some k) (some ds) = w ++ '#' :: ds)
    ∧ (∀ pm : List (List Char × List Char),
      alookup pm "undefined".toList = none →
      projRefReplacement pm none none = "undefined#undefined".toList)
    ∧ (convertBody ⟨⟨"u".toList, "o".toList, "r".toList⟩, [],
        [("otherorg/repo".toList, "dest/repo".toList)],
        some [(5, 99)], none, none, false,
        passThroughPreprocessAttachment [] []⟩
        [] ⟨none, none, []⟩ "otherorg/repo#5".toList false).2
      = "dest/repo#5".toList := by
  refine ⟨?_, ?_, by decide⟩
  · intro pm k w ds h
    simp [projRefReplacement, jsStr, h]
  · intro pm h
    simp only [projRefReplacement, jsStr, Option.getD_none]
    rw [h]
    decide

/-- Witness for C4's general conjuncts at the single-entry map `{a ↦ x}`
and at a map without an `undefined` key. -/
theorem c4_witness :
    projRefReplacement [("a".toList, "x".toList)]
        (some "a".toList) (some "5".toList) = "x".toList ++ '#' :: "5".toList
    ∧ projRefReplacement [("a".toList, "x".toList)] none none
        = "undefined#undefined".toList :=
  ⟨c4_cross_project_rewrite.1 [("a".toList, "x".toList)]
      "a".toList "x".toList "5".toList (by decide),
    c4_cross_project_rewrite.2.1 [("a".toList, "x".toList)] (by decide)⟩

/-!
## Claim C9 — determinism of the body rewrite
-/

/-- **C9.**  For a fixed configuration (identifier maps, user and project
tables, flags, storage backend), the rewritten text produced by
`convertBody` is a function of the input text and owning entity alone: it
does not depend on the converter's accumulated `attachmentMap` state, so
two calls with identical inputs — wherever they occur in a run — produce
identical output text, and rerunning the rewrite on the state left by the
first call changes nothing. -/
theorem c9_rewrite_deterministic (cfg : RewriteConfig)
    (item : GitLabItemModel) (s : List Char) (add_line : Bool)
    (st st' : AttachmentMap) :
    (convertBody cfg st item s add_line).2
        = (convertBody cfg st' item s add_line).2
    ∧ (convertBody cfg (convertBody cfg st item s add_line).1 item s
        add_line).2 = (convertBody cfg st item s add_line).2 := by
  have key : ∀ st₁ st₂ : AttachmentMap,
      (convertBody cfg st₁ item s add_line).2
        = (convertBody cfg st₂ item s add_line).2 := by
    intro st₁ st₂
    unfold convertBody
    cases h : cfg.transferAttachments <;> simp [h, convertAttachments]
  exact ⟨key st st', key _ st⟩

/-!
## Claim C7 — attachment registry memoization
-/

theorem mapSet_keys_subset {κ ν : Type} [DecidableEq κ] :
    ∀ (m : List (κ × ν)) (k : κ) (v : ν) (x : κ),
      x ∈ (mapSet m k v).map Prod.fst → x ∈ m.map Prod.fst ∨ x = k := by
  intro m k v
  induction m with
  | nil =>
    intro x hx
    simp [mapSet] at hx
    exact Or.inr hx
  | cons e rest ih =>
    intro x hx
    rcases e with ⟨k', v'⟩
    by_cases hk : k' = k
    · rw [show mapSet ((k', v') :: rest) k v = (k, v) :: rest by
        simp [mapSet, hk]] at hx
      rcases List.mem_cons.mp hx with h | h
      · exact Or.inr h
      · exact Or.inl (by simp [List.mem_cons]; exact Or.inr (by simpa using h))
    · rw [show mapSet ((k', v') :: rest) k v = (k', v') :: mapSet rest k v by
        simp [mapSet, hk]] at hx
      rcases List.mem_cons.mp hx with h | h
      · exact Or.inl (by simp [h])
      · rcases ih x h with h' | h'
        · exact Or.inl (by simp [List.mem_cons]; exact Or.inr (by simpa using h'))
        · exact Or.inr h'

theorem mapSet_keys_nodup {κ ν : Type} [DecidableEq κ] :
    ∀ (m : List (κ × ν)) (k : κ) (v : ν),
      (m.map Prod.fst).Nodup → ((mapSet m k v).map Prod.fst).Nodup := by
  intro m k v
  induction m with
  | nil => intro _; simp [mapSet]
  | cons e rest ih =>
    intro hnd
    rcases e with ⟨k', v'⟩
    rw [List.map_cons, List.nodup_cons] at hnd
    by_cases hk : k' = k
    · rw [show mapSet ((k', v') :: rest) k v = (k, v) :: rest by
        simp [mapSet, hk]]
      rw [List.map_cons, List.nodup_cons]
      refine ⟨?_, hnd.2⟩
      rw [← hk]
      exact hnd.1
    · rw [show mapSet ((k', v') :: rest) k v = (k', v') :: mapSet rest k v by
        simp [mapSet, hk]]
      rw [List.map_cons, List.nodup_cons]
      refine ⟨?_, ih hnd.2⟩
      intro hmem
      rcases mapSet_keys_subset rest k v k' hmem with h | h
      · exact hnd.1 h
      · exact hk h

theorem mapSet_entries_pred {κ ν : Type} [DecidableEq κ] (P : κ × ν → Prop) :
    ∀ (m : List (κ × ν)) (k : κ) (v : ν),
      (∀ e ∈ m, P e) → P (k, v) → ∀ e ∈ mapSet m k v, P e := by
  intro m k v
  induction m with
  | nil =>
    intro _ hkv e he
    have : e = (k, v) := by simpa [mapSet] using he
    exact this ▸ hkv
  | cons e0 rest ih =>
    intro hall hkv e he
    rcases e0 with ⟨k', v'⟩
    by_cases hk : k' = k
    · rw [show mapSet ((k', v') :: rest) k v = (k, v) :: rest by
        simp [mapSet, hk]] at he
      rcases List.mem_cons.mp he with h | h
      · exact h ▸ hkv
      · exact hall e (by simp [h])
    · rw [show mapSet ((k', v') :: rest) k v = (k', v') :: mapSet rest k v by
        simp [mapSet, hk]] at he
      rcases List.mem_cons.mp he with h | h
      · exact hall e (by simp [h])
      · exact ih (fun e' he' => hall e' (by simp [he'])) hkv e h

/-- Folding attachment registrations over a run preserves both registry
invariants: distinct keys, and every entry determined by its origin. -/
theorem registerFold_invariants (f : List Char → AttachmentMetadata)
    (hf : ∀ u, (f u).origin = u) :
    ∀ (urls : List (List Char)) (st : AttachmentMap),
      (st.map Prod.fst).Nodup → (∀ e ∈ st, e.2 = f e.1) →
      ((urls.foldl (fun m u => mapSet m (f u).origin (f u)) st).map
          Prod.fst).Nodup
      ∧ (∀ e ∈ urls.foldl (fun m u => mapSet m (f u).origin (f u)) st,
          e.2 = f e.1) := by
  intro urls
  induction urls with
  | nil => intro st h1 h2; exact ⟨h1, h2⟩
  | cons u rest ih =>
    intro st h1 h2
    apply ih
    · exact mapSet_keys_nodup st (f u).origin (f u) h1
    · apply mapSet_entries_pred (fun e => e.2 = f e.1) st (f u).origin (f u) h2
      show (f u) = f ((f u).origin)
      rw [hf u]

/-- **C7.**  Across any number of bodies rewritten in one run, the
attachment registry holds at most one entry per origin (its keys are
pairwise distinct), and the metadata stored under an origin is always
`preprocessAttachment` of that origin — so the same origin can never be
mapped to two different destinations within a run.  The concrete
conjuncts: two bodies both containing `![x](/uploads/a.png)` produce
exactly one registry entry for that origin, and the two rewritten bodies
are identical, both pointing at the same destination string. -/
theorem c7_attachment_memoization (f : List Char → AttachmentMetadata)
    (bodies : List (List Char)) (hf : ∀ u, (f u).origin = u) :
    ((processBodies f bodies).1.map Prod.fst).Nodup
    ∧ (∀ e ∈ (processBodies f bodies).1, e.2 = f e.1)
    ∧ (processBodies (passThroughPreprocessAttachment
          "https://gitlab.com/".toList "g/p".toList)
        ["see ![x](/uploads/a.png)".toList,
          "see ![x](/uploads/a.png)".toList]).1.map Prod.fst
      = ["/uploads/a.png".toList]
    ∧ (processBodies (passThroughPreprocessAttachment
          "https://gitlab.com/".toList "g/p".toList)
        ["see ![x](/uploads/a.png)".toList,
          "see ![x](/uploads/a.png)".toList]).2
      = ["see ![x](https://gitlab.com/g/p/uploads/a.png)".toList,
          "see ![x](https://gitlab.com/g/p/uploads/a.png)".toList] := by
  have main : ∀ (bs : List (List Char)) (acc : AttachmentMap × List (List Char)),
      (acc.1.map Prod.fst).Nodup → (∀ e ∈ acc.1, e.2 = f e.1) →
      ((bs.foldl (fun acc b =>
          let r := convertAttachments f acc.1 b
          (r.1, acc.2 ++ [r.2])) acc).1.map Prod.fst).Nodup
      ∧ ∀ e ∈ (bs.foldl (fun acc b =>
          let r := convertAttachments f acc.1 b
          (r.1, acc.2 ++ [r.2])) acc).1, e.2 = f e.1 := by
    intro bs
    induction bs with
    | nil => intro acc h1 h2; exact ⟨h1, h2⟩
    | cons b rest ih =>
      intro acc h1 h2
      rw [List.foldl_cons]
      apply ih
      · exact (registerFold_invariants f hf (attachScan f b).1 acc.1 h1 h2).1
      · exact (registerFold_invariants f hf (attachScan f b).1 acc.1 h1 h2).2
  have hmain := main bodies ([], []) (by simp) (by simp)
  exact ⟨hmain.1, hmain.2, by decide, by decide⟩

/-- Witness for C7 with the pass-through storage helper over the two
concrete bodies. -/
theorem c7_witness :
    ((processBodies (passThroughPreprocessAttachment
        "https://gitlab.com/".toList "g/p".toList)
      ["see ![x](/uploads/a.png)".toList,
        "see ![x](/uploads/a.png)".toList]).1.map Prod.fst).Nodup :=
  (c7_attachment_memoization
    (passThroughPreprocessAttachment "https://gitlab.com/".toList "g/p".toList)
    ["see ![x](/uploads/a.png)".toList, "see ![x](/uploads/a.png)".toList]
    (fun _ => rfl)).1

end G2G
